import Mathlib

/-!
vo2CircularBuffer: a fixed-capacity, priority-aware ring buffer.

Shallow embedding of `src/vo2CircularBuffer.tpp` / `src/vo2CircularBuffer.h`.

* The template parameter `T` is any type with a readable `highPriority` flag
  (`HasPriority T`) and a default constructor (`Inhabited T`).
* `size_t` indices are natural numbers; `% Size` is written where the source writes it.
* The array `T buffer[Size]` is a list; the representation invariant
  (`WF`: exactly `Size` slots, both indices below `Size`) is stated separately.
* The mutex is not modelled: every function below is the sequential body of the
  corresponding member function.
* The `while (!isEmpty())` loop of `removeAllLowPriority` takes an explicit bound on the
  number of loop bodies it may run (`fuel`); running out of fuel is `none`.
-/

set_option linter.unusedSectionVars false
set_option linter.unusedVariables false

namespace Vo2

/-- Item types expose a boolean `highPriority` attribute. -/
class HasPriority (T : Type) where
  /-- The flag read by the buffer as `item.highPriority`. -/
  highPriority : T → Bool

export HasPriority (highPriority)

/-- Private data members of `CircularBuffer<T, Size>`:
`buffer`, `head` (write position), `tail` (read position), `full`. -/
structure CircularBuffer (T : Type) (Size : Nat) where
  /-- Storage `T buffer[Size]`. -/
  buffer : List T
  /-- Head index: where the next item is written. -/
  head : Nat
  /-- Tail index: where the next item is read. -/
  tail : Nat
  /-- Full flag. -/
  full : Bool
deriving DecidableEq, Repr

/-- Locals of `removeAllLowPriority`: `tempBuffer`, `tempHead`, `tempTail`, `tempFull`. -/
structure Temp (T : Type) where
  /-- Local `T tempBuffer[Size]`. -/
  tempBuffer : List T
  /-- Local `tempHead`. -/
  tempHead : Nat
  /-- Local `tempTail`. -/
  tempTail : Nat
  /-- Local `tempFull`. -/
  tempFull : Bool
deriving DecidableEq, Repr

namespace CircularBuffer

variable {T : Type} [HasPriority T] [Inhabited T] {Size : Nat}

/-- Constructor `CircularBuffer() : head(0), tail(0), full(false)`; the storage is
default-constructed. -/
def construct : CircularBuffer T Size :=
  { buffer := List.replicate Size default, head := 0, tail := 0, full := false }

/-- Source `isEmpty()`: `!full && (head == tail)`. -/
def isEmpty (s : CircularBuffer T Size) : Bool :=
  !s.full && (s.head == s.tail)

/-- Source `isFull()`: returns the flag. -/
def isFull (s : CircularBuffer T Size) : Bool :=
  s.full

/-- Source `clear()`: both indices to `0`, flag cleared, storage untouched. -/
def clear (s : CircularBuffer T Size) : CircularBuffer T Size :=
  { s with head := 0, tail := 0, full := false }

/-- Source `pop(item, lock)`: the result is (returned flag, value of the out parameter
`item` after the call, buffer after the call). -/
def pop (s : CircularBuffer T Size) (item : T) : Bool × T × CircularBuffer T Size :=
  if s.isEmpty then
    (false, item, s)
  else
    (true, s.buffer.getD s.tail default,
      { s with tail := (s.tail + 1) % Size, full := false })

/-- The scan `for (i = 0; i < Size; ++i)` of `replaceOldestWithLowPriority`, with `n`
iterations left and the cursor at `pos`; returns the final `pos` and `foundLowPriority`. -/
def findLowPriority (buffer : List T) (Size : Nat) : Nat → Nat → Nat × Bool
  | 0, pos => (pos, false)
  | n + 1, pos =>
    if !highPriority (buffer.getD pos default) then (pos, true)
    else findLowPriority buffer Size n ((pos + 1) % Size)

/-- Source `replaceOldestWithLowPriority(item)`: returned flag and buffer after the call. -/
def replaceOldestWithLowPriority (s : CircularBuffer T Size) (item : T) :
    Bool × CircularBuffer T Size :=
  let r := findLowPriority s.buffer Size Size s.tail
  if r.2 then
    (true, { s with
      buffer := s.buffer.set r.1 item,
      head := if r.1 = s.head then (s.head + 1) % Size else s.head })
  else if highPriority item then
    (true, { s with
      buffer := s.buffer.set s.tail item,
      tail := (s.tail + 1) % Size,
      head := (s.head + 1) % Size })
  else
    (false, s)

/-- The loop `while (!isEmpty()) { T item; pop(item,false); if (item.highPriority) ... }`
of `removeAllLowPriority`, allowed to run at most `fuel` bodies. -/
def drainLoop : Nat → CircularBuffer T Size → Temp T → Option (CircularBuffer T Size × Temp T)
  | 0, s, t => if s.isEmpty then some (s, t) else none
  | fuel + 1, s, t =>
    if s.isEmpty then some (s, t)
    else
      let r := s.pop default
      let item := r.2.1
      let t1 : Temp T :=
        if highPriority item then
          { t with
            tempBuffer := t.tempBuffer.set t.tempHead item,
            tempHead := (t.tempHead + 1) % Size,
            tempFull := ((t.tempHead + 1) % Size == t.tempTail) }
        else t
      drainLoop fuel r.2.2 t1

/-- The loop `for (i = 0; i < Size; ++i) buffer[i] = tempBuffer[i];`. -/
def copyLoop (Size : Nat) (tempBuffer buffer : List T) : List T :=
  (List.range Size).foldl (fun b i => b.set i (tempBuffer.getD i default)) buffer

/-- Source `removeAllLowPriority()`. -/
def removeAllLowPriority (fuel : Nat) (s : CircularBuffer T Size) :
    Option (CircularBuffer T Size) :=
  match drainLoop fuel s
      { tempBuffer := List.replicate Size default, tempHead := 0, tempTail := 0,
        tempFull := false } with
  | none => none
  | some (s1, t) =>
    some { buffer := copyLoop Size t.tempBuffer s1.buffer,
           head := t.tempHead, tail := t.tempTail, full := t.tempFull }

/-- Source `push(item)`: `none` when the purge loop did not finish within `fuel` bodies,
otherwise the returned flag and the buffer after the call. -/
def push (fuel : Nat) (s : CircularBuffer T Size) (item : T) :
    Option (Bool × CircularBuffer T Size) :=
  match (if highPriority item then removeAllLowPriority fuel s else some s) with
  | none => none
  | some s1 =>
    if s1.full then
      let r := replaceOldestWithLowPriority s1 item
      if !r.1 then some (false, r.2) else some (true, r.2)
    else
      some (true, { s1 with
        buffer := s1.buffer.set s1.head item,
        head := (s1.head + 1) % Size,
        full := ((s1.head + 1) % Size == s1.tail) })

/-- Representation invariant of the class: the storage has exactly `Size` slots and both
indices point into it. -/
def WF (s : CircularBuffer T Size) : Prop :=
  s.buffer.length = Size ∧ s.head < Size ∧ s.tail < Size

instance (s : CircularBuffer T Size) : Decidable (WF s) := by
  unfold WF; infer_instance

/-- Calling `push` on each item of a list in turn: the returned flags and the final buffer. -/
def pushSeq (fuel : Nat) : CircularBuffer T Size → List T → Option (List Bool × CircularBuffer T Size)
  | s, [] => some ([], s)
  | s, x :: xs =>
    match push fuel s x with
    | none => none
    | some (b, s1) =>
      match pushSeq fuel s1 xs with
      | none => none
      | some (bs, s2) => some (b :: bs, s2)

/-- Removal order: `RemovalOrder s cs` says that successive calls of `pop` on `s` return true
and yield exactly the items `cs`, in that order, and that the next `pop` returns false. -/
def RemovalOrder : CircularBuffer T Size → List T → Prop
  | s, [] => (s.pop default).1 = false
  | s, c :: cs =>
    (s.pop default).1 = true ∧ (s.pop default).2.1 = c ∧ RemovalOrder (s.pop default).2.2 cs

/-- States reachable from the constructed buffer by `push`, `pop` and `clear`. -/
inductive Reachable : CircularBuffer T Size → Prop
  | construct : Reachable construct
  | push {s s1 : CircularBuffer T Size} (fuel : Nat) (item : T) (b : Bool) :
      Reachable s → push fuel s item = some (b, s1) → Reachable s1
  | pop {s : CircularBuffer T Size} (item : T) : Reachable s → Reachable (s.pop item).2.2
  | clear {s : CircularBuffer T Size} : Reachable s → Reachable s.clear

/-! ## Derived notions used in the statements and proofs -/

/-- Number of items a sequence of `pop` calls will deliver. -/
def count (s : CircularBuffer T Size) : Nat :=
  if s.head = s.tail then (if s.full then Size else 0)
  else if s.tail < s.head then s.head - s.tail else s.head + Size - s.tail

/-- The items a sequence of `pop` calls will deliver, oldest first. -/
def items (s : CircularBuffer T Size) : List T :=
  (List.range (count s)).map (fun i => s.buffer.getD ((s.tail + i) % Size) default)

/-- The buffer left by a successful `pop`. -/
def popped (s : CircularBuffer T Size) : CircularBuffer T Size :=
  { s with tail := (s.tail + 1) % Size, full := false }

/-- The buffer left by the `else` branch of `push` (the buffer was not full). -/
def stored (s : CircularBuffer T Size) (item : T) : CircularBuffer T Size :=
  { s with
    buffer := s.buffer.set s.head item,
    head := (s.head + 1) % Size,
    full := ((s.head + 1) % Size == s.tail) }

/-- Every one of the `Size` storage slots holds a high-priority item. -/
def AllSlotsHigh (s : CircularBuffer T Size) : Prop :=
  ∀ i, i < Size → highPriority (s.buffer.getD i default) = true

instance (s : CircularBuffer T Size) : Decidable (AllSlotsHigh s) := by
  unfold AllSlotsHigh; infer_instance

/-- The locals of `removeAllLowPriority` after the kept items `pre` have been written. -/
def TempOf (Size : Nat) (pre : List T) (t : Temp T) : Prop :=
  t.tempBuffer = pre ++ List.replicate (Size - pre.length) default ∧
  t.tempHead = pre.length % Size ∧ t.tempTail = 0 ∧ t.tempFull = decide (pre.length = Size)

/-- A buffer in which a set full flag comes with equal read and write positions. -/
def Normal (s : CircularBuffer T Size) : Prop :=
  WF s ∧ (s.full = true → s.head = s.tail)

/-- The removal order after a `push` that found room: a high-priority item first removes
the low-priority ones. -/
def pushed (c : List T) (x : T) : List T :=
  if highPriority x then c.filter highPriority ++ [x] else c ++ [x]

/-- Number of low-priority items in a list. -/
def countLow (cs : List T) : Nat :=
  (cs.filter (fun c => !highPriority c)).length

/-- Invariant of the reachable states behind the drain order: the representation invariant,
no high-priority item after a low-priority one in the removal order, and a low-priority
item at the read position whenever the full flag is set with different positions. -/
def OrderInv (s : CircularBuffer T Size) : Prop :=
  WF s ∧
  (items s).Pairwise (fun a b => highPriority b = true → highPriority a = true) ∧
  (s.full = true → s.head ≠ s.tail → highPriority (s.buffer.getD s.tail default) = false)

/-- The list `cs` with its first low-priority item overwritten by `x`. -/
def replaceFirstLow : List T → T → List T
  | [], _ => []
  | c :: cs, x => if highPriority c then c :: replaceFirstLow cs x else x :: cs

/-- Number of slots read by the scan of `replaceOldestWithLowPriority` (one per executed
loop body), with `n` iterations left and the cursor at `pos`. -/
def scanReads (buffer : List T) (Size : Nat) : Nat → Nat → Nat
  | 0, _ => 0
  | n + 1, pos =>
    if !highPriority (buffer.getD pos default) then 1
    else 1 + scanReads buffer Size n ((pos + 1) % Size)

/-- The indices `tempHead` at which the loop of `removeAllLowPriority` executes
`tempBuffer[tempHead] = item`, in the order of the writes. -/
def drainWrites : Nat → CircularBuffer T Size → Temp T → List Nat
  | 0, _, _ => []
  | fuel + 1, s, t =>
    if s.isEmpty then []
    else
      let r := s.pop default
      let item := r.2.1
      if highPriority item then
        t.tempHead :: drainWrites fuel r.2.2
          { t with
            tempBuffer := t.tempBuffer.set t.tempHead item,
            tempHead := (t.tempHead + 1) % Size,
            tempFull := ((t.tempHead + 1) % Size == t.tempTail) }
      else drainWrites fuel r.2.2 t

end CircularBuffer

/-- A concrete item type for worked examples: the priority flag and an identifying tag. -/
structure Msg where
  /-- Priority flag. -/
  highPriority : Bool
  /-- Payload. -/
  tag : Nat
deriving DecidableEq, Repr

instance : HasPriority Msg := ⟨Msg.highPriority⟩
instance : Inhabited Msg := ⟨⟨false, 0⟩⟩

/-- A low-priority message with the given tag. -/
def lo (n : Nat) : Msg := ⟨false, n⟩
/-- A high-priority message with the given tag. -/
def hi (n : Nat) : Msg := ⟨true, n⟩

end Vo2

namespace Vo2.CircularBuffer

variable {T : Type} [HasPriority T] [Inhabited T] {Size : Nat}

/-! ## Arithmetic of circular indices -/

theorem succ_mod_eq {a n : Nat} (h : a < n) :
    (a + 1) % n = if a + 1 = n then 0 else a + 1 := by
  split
  · next h1 => rw [h1]; exact Nat.mod_self n
  · next h1 => exact Nat.mod_eq_of_lt (by omega)

theorem add_mod_eq {a b n : Nat} (ha : a < n) (hb : b ≤ n) :
    (a + b) % n = if a + b < n then a + b else a + b - n := by
  split
  · next h1 => exact Nat.mod_eq_of_lt h1
  · next h1 =>
    rw [Nat.mod_eq_sub_mod (by omega)]
    exact Nat.mod_eq_of_lt (by omega)

/-! ## The logical contents of a buffer -/

theorem length_items (s : CircularBuffer T Size) : (items s).length = count s := by
  simp [items]

theorem count_le (s : CircularBuffer T Size) (hwf : WF s) : count s ≤ Size := by
  obtain ⟨_, h2, h3⟩ := hwf
  unfold count
  split_ifs <;> omega

theorem isEmpty_iff_count (s : CircularBuffer T Size) (hwf : WF s) :
    s.isEmpty = true ↔ count s = 0 := by
  obtain ⟨_, h2, h3⟩ := hwf
  unfold isEmpty count
  cases hf : s.full <;> simp <;> split_ifs <;> omega

theorem isEmpty_false_iff_count (s : CircularBuffer T Size) (hwf : WF s) :
    s.isEmpty = false ↔ 0 < count s := by
  rw [← Bool.not_eq_true, isEmpty_iff_count s hwf]; omega

theorem pop_of_isEmpty (s : CircularBuffer T Size) (o : T) (h : s.isEmpty = true) :
    s.pop o = (false, o, s) := by
  simp [pop, h]

theorem pop_of_not_isEmpty (s : CircularBuffer T Size) (o : T) (h : s.isEmpty = false) :
    s.pop o = (true, s.buffer.getD s.tail default, popped s) := by
  simp [pop, h, popped]

theorem WF_popped (s : CircularBuffer T Size) (hwf : WF s) : WF (popped s) := by
  obtain ⟨h1, h2, h3⟩ := hwf
  exact ⟨h1, h2, Nat.mod_lt _ (by omega)⟩

theorem count_popped (s : CircularBuffer T Size) (hwf : WF s) (hc : 0 < count s) :
    count (popped s) = count s - 1 := by
  obtain ⟨_, h2, h3⟩ := hwf
  unfold count at hc ⊢
  simp only [popped, succ_mod_eq h3]
  cases hf : s.full <;> simp [hf] at hc ⊢ <;> split_ifs at hc ⊢ <;> omega

theorem items_eq_cons (s : CircularBuffer T Size) (hwf : WF s) (hc : 0 < count s) :
    items s = s.buffer.getD s.tail default :: items (popped s) := by
  have hcp := count_popped s hwf hc
  obtain ⟨_, h2, h3⟩ := hwf
  unfold items
  obtain ⟨c, hc1⟩ : ∃ c, count s = c + 1 := ⟨count s - 1, by omega⟩
  rw [hcp, hc1, List.range_succ_eq_map]
  simp only [List.map_cons, List.map_map, Nat.add_zero, Nat.mod_eq_of_lt h3, Nat.add_sub_cancel]
  congr 1
  apply List.map_congr_left
  intro i _
  simp only [popped, Function.comp, Nat.mod_add_mod]
  congr 2
  omega

/-! ## Removal order and the logical contents -/

theorem removalOrder_items (n : Nat) :
    ∀ s : CircularBuffer T Size, WF s → count s = n → RemovalOrder s (items s) := by
  induction n with
  | zero =>
    intro s hwf hc
    have he := (isEmpty_iff_count s hwf).2 hc
    have : items s = [] := by simp [items, hc]
    rw [this]
    simp [RemovalOrder, pop_of_isEmpty s default he]
  | succ n ih =>
    intro s hwf hc
    have hpos : 0 < count s := by omega
    have he := (isEmpty_false_iff_count s hwf).2 hpos
    rw [items_eq_cons s hwf hpos]
    simp only [RemovalOrder, pop_of_not_isEmpty s default he, true_and]
    exact ih (popped s) (WF_popped s hwf) (by rw [count_popped s hwf hpos]; omega)

theorem removalOrder_unique :
    ∀ (cs ds : List T) (s : CircularBuffer T Size),
      RemovalOrder s cs → RemovalOrder s ds → cs = ds := by
  intro cs
  induction cs with
  | nil =>
    intro ds s h1 h2
    cases ds with
    | nil => rfl
    | cons d ds =>
      simp only [RemovalOrder] at h1 h2
      rw [h1] at h2
      exact absurd h2.1 (by simp)
  | cons c cs ih =>
    intro ds s h1 h2
    cases ds with
    | nil =>
      simp only [RemovalOrder] at h1 h2
      rw [h2] at h1
      exact absurd h1.1 (by simp)
    | cons d ds =>
      simp only [RemovalOrder] at h1 h2
      obtain ⟨_, hc, hr1⟩ := h1
      obtain ⟨_, hd, hr2⟩ := h2
      rw [← hc, ← hd, ih ds _ hr1 hr2]

theorem removalOrder_iff (s : CircularBuffer T Size) (hwf : WF s) (cs : List T) :
    RemovalOrder s cs ↔ cs = items s := by
  constructor
  · intro h
    exact removalOrder_unique cs (items s) s h (removalOrder_items _ s hwf rfl)
  · intro h
    rw [h]
    exact removalOrder_items _ s hwf rfl

/-! ## Writing into a buffer that is not full -/

theorem WF_stored (s : CircularBuffer T Size) (hwf : WF s) (x : T) : WF (stored s x) := by
  obtain ⟨h1, h2, h3⟩ := hwf
  exact ⟨by simp [stored, h1], Nat.mod_lt _ (by omega), h3⟩

theorem count_stored (s : CircularBuffer T Size) (hwf : WF s) (hf : s.full = false) (x : T) :
    count (stored s x) = count s + 1 := by
  obtain ⟨_, h2, h3⟩ := hwf
  unfold count
  simp only [stored, succ_mod_eq h2, hf]
  by_cases h : s.head + 1 = Size
  · simp [h]
    split_ifs <;> omega
  · simp [h]
    split_ifs <;> omega

theorem full_stored (s : CircularBuffer T Size) (hwf : WF s) (hf : s.full = false) (x : T) :
    (stored s x).full = true ↔ count s + 1 = Size := by
  obtain ⟨_, h2, h3⟩ := hwf
  unfold count
  simp only [stored, succ_mod_eq h2, hf, beq_iff_eq]
  split_ifs <;> first | omega | simp_all

theorem items_stored (s : CircularBuffer T Size) (hwf : WF s) (hf : s.full = false) (x : T) :
    items (stored s x) = items s ++ [x] := by
  have hc := count_stored s hwf hf x
  have hle := count_le (stored s x) (WF_stored s hwf x)
  obtain ⟨h1, h2, h3⟩ := hwf
  have hcs : count s = if s.tail ≤ s.head then s.head - s.tail else s.head + Size - s.tail := by
    unfold count
    simp only [hf]
    split_ifs <;> first | omega | simp_all
  unfold items
  rw [hc, List.range_succ, List.map_append]
  congr 1
  · apply List.map_congr_left
    intro i hi
    have hi1 : i < count s := List.mem_range.1 hi
    have hne : s.head ≠ (s.tail + i) % Size := by
      rw [add_mod_eq h3 (by omega)]
      split_ifs at hcs ⊢ <;> omega
    simp only [stored, List.getD_eq_getElem?_getD, List.getElem?_set_ne hne]
  · have heq : (s.tail + count s) % Size = s.head := by
      rw [add_mod_eq h3 (by omega)]
      split_ifs at hcs ⊢ <;> omega
    simp only [List.map_cons, List.map_nil, stored, heq, List.getD_eq_getElem?_getD]
    rw [List.getElem?_set_self (by omega)]
    rfl

/-! ## The eviction scan -/

theorem findLowPriority_not_found (buf : List T) (hS : 0 < Size) (n : Nat) :
    ∀ pos, pos < Size →
      ((findLowPriority buf Size n pos).2 = false ↔
        ∀ j, j < n → highPriority (buf.getD ((pos + j) % Size) default) = true) := by
  induction n with
  | zero => intro pos _; simp [findLowPriority]
  | succ n ih =>
    intro pos hpos
    unfold findLowPriority
    cases hp : highPriority (buf.getD pos default)
    · simp only [Bool.not_false, if_true]
      constructor
      · intro h; exact absurd h (by simp)
      · intro h
        have := h 0 (by omega)
        rw [Nat.add_zero, Nat.mod_eq_of_lt hpos, hp] at this
        exact absurd this (by simp)
    · simp only [Bool.not_true, Bool.false_eq_true, if_false]
      rw [ih _ (Nat.mod_lt _ hS)]
      constructor
      · intro h j hj
        cases j with
        | zero => rw [Nat.add_zero, Nat.mod_eq_of_lt hpos]; exact hp
        | succ j =>
          have := h j (by omega)
          rw [Nat.mod_add_mod] at this
          rw [show pos + (j + 1) = pos + 1 + j by omega]
          exact this
      · intro h j hj
        have := h (j + 1) (by omega)
        rw [Nat.mod_add_mod]
        rw [show pos + (j + 1) = pos + 1 + j by omega] at this
        exact this

theorem scan_covers (P : Nat → Prop) {pos : Nat} (hpos : pos < Size) :
    (∀ j, j < Size → P ((pos + j) % Size)) ↔ ∀ i, i < Size → P i := by
  constructor
  · intro h i hi
    by_cases hle : pos ≤ i
    · have := h (i - pos) (by omega)
      rw [add_mod_eq hpos (by omega)] at this
      split_ifs at this <;> first | omega | (convert this using 1; omega)
    · have := h (i + Size - pos) (by omega)
      rw [add_mod_eq hpos (by omega)] at this
      split_ifs at this <;> first | omega | (convert this using 1; omega)
  · intro h j _
    exact h _ (Nat.mod_lt _ (by omega))

theorem found_false_iff (s : CircularBuffer T Size) (hwf : WF s) :
    (findLowPriority s.buffer Size Size s.tail).2 = false ↔ AllSlotsHigh s := by
  obtain ⟨_, _, h3⟩ := hwf
  rw [findLowPriority_not_found s.buffer (by omega) Size s.tail h3]
  exact scan_covers (fun i => highPriority (s.buffer.getD i default) = true) h3

/-! ## The purge of low-priority items -/

theorem set_append_replicate (pre : List T) (k : Nat) (d x : T) :
    (pre ++ List.replicate (k + 1) d).set pre.length x = (pre ++ [x]) ++ List.replicate k d := by
  induction pre with
  | nil => simp [List.replicate_succ]
  | cons a pre ih => simpa using ih

theorem copyLoop_take_drop (temp : List T) (n : Nat) :
    ∀ buf : List T, n ≤ temp.length → temp.length = buf.length →
      copyLoop n temp buf = temp.take n ++ buf.drop n := by
  induction n with
  | zero => intro buf _ _; simp [copyLoop]
  | succ n ih =>
    intro buf hn hl
    have h := ih buf (by omega) hl
    unfold copyLoop at h ⊢
    rw [List.range_succ, List.foldl_append, h]
    simp only [List.foldl_cons, List.foldl_nil]
    apply List.ext_getElem?
    intro i
    simp only [List.getElem?_set, List.getElem?_append, List.getElem?_take, List.getElem?_drop,
      List.length_take, List.length_append, List.length_drop, List.getD_eq_getElem?_getD]
    have hmin : min n temp.length = n := by omega
    have hmin1 : min (n + 1) temp.length = n + 1 := by omega
    rw [hmin, hmin1]
    by_cases h1 : n = i
    · subst h1
      have : n < temp.length := by omega
      simp [this, List.getElem?_eq_getElem this]
      omega
    · by_cases h2 : i < n
      · have : i < n + 1 := by omega
        simp [h1, h2, this]
      · have : ¬ i < n + 1 := by omega
        simp [h1, h2, this]
        congr 1
        omega

theorem copyLoop_eq (temp buf : List T) (ht : temp.length = Size) (hb : buf.length = Size) :
    copyLoop Size temp buf = temp := by
  rw [copyLoop_take_drop temp Size buf (by omega) (by omega)]
  rw [List.take_of_length_le (by omega), List.drop_of_length_le (by omega)]
  simp

theorem drainLoop_spec (fuel : Nat) :
    ∀ (s : CircularBuffer T Size) (t : Temp T) (pre : List T),
      WF s → count s ≤ fuel → pre.length + count s ≤ Size → TempOf Size pre t →
      ∃ s1 t1, drainLoop fuel s t = some (s1, t1) ∧ WF s1 ∧
        TempOf Size (pre ++ (items s).filter highPriority) t1 := by
  induction fuel with
  | zero =>
    intro s t pre hwf hc _ ht
    have hc0 : count s = 0 := by omega
    have he := (isEmpty_iff_count s hwf).2 hc0
    refine ⟨s, t, by simp [drainLoop, he], hwf, ?_⟩
    simpa [items, hc0] using ht
  | succ fuel ih =>
    intro s t pre hwf hc hle ht
    by_cases hc0 : count s = 0
    · have he := (isEmpty_iff_count s hwf).2 hc0
      refine ⟨s, t, by simp [drainLoop, he], hwf, ?_⟩
      simpa [items, hc0] using ht
    · have hpos : 0 < count s := by omega
      have he := (isEmpty_false_iff_count s hwf).2 hpos
      have hcp := count_popped s hwf hpos
      simp only [drainLoop, he, pop_of_not_isEmpty s default he, Bool.false_eq_true, if_false]
      rw [items_eq_cons s hwf hpos]
      generalize s.buffer.getD s.tail default = x
      obtain ⟨hb, hh, htl, hf⟩ := ht
      have hlt : pre.length < Size := by omega
      cases hp : highPriority x
      · simp only [Bool.false_eq_true, if_false, List.filter_cons, hp]
        exact ih (popped s) t pre (WF_popped s hwf) (by omega) (by omega) ⟨hb, hh, htl, hf⟩
      · simp only [if_true, List.filter_cons, hp]
        have hT : TempOf Size (pre ++ [x])
            { t with
              tempBuffer := t.tempBuffer.set t.tempHead x,
              tempHead := (t.tempHead + 1) % Size,
              tempFull := ((t.tempHead + 1) % Size == t.tempTail) } := by
          have hh1 : t.tempHead = pre.length := by rw [hh, Nat.mod_eq_of_lt hlt]
          refine ⟨?_, ?_, htl, ?_⟩
          · simp only [hb, hh1]
            obtain ⟨k, hk⟩ : ∃ k, Size - pre.length = k + 1 := ⟨Size - pre.length - 1, by omega⟩
            rw [hk, set_append_replicate]
            congr 2
            simp
            omega
          · simp [hh1]
          · simp only [hh1, htl, List.length_append, List.length_singleton]
            rw [succ_mod_eq hlt]
            by_cases h1 : pre.length + 1 = Size
            · simp [h1]
            · simp [h1]
        have := ih (popped s) _ _ (WF_popped s hwf) (by omega)
          (by simp only [List.length_append, List.length_singleton]; omega) hT
        rw [List.append_assoc] at this
        exact this

theorem map_getD_append_left (hs rest : List T) (d : T) :
    (List.range hs.length).map (fun i => (hs ++ rest).getD i d) = hs := by
  apply List.ext_getElem
  · simp
  · intro i h1 h2
    simp only [List.getElem_map, List.getElem_range, List.getD_eq_getElem?_getD]
    rw [List.getElem?_append_left h2, List.getElem?_eq_getElem h2]
    rfl

/-- What `removeAllLowPriority` leaves: the high-priority items, in removal order, compacted
to the start of the storage. -/
theorem removeAllLowPriority_spec (fuel : Nat) (s : CircularBuffer T Size) (hwf : WF s)
    (hfuel : count s ≤ fuel) :
    ∃ r, removeAllLowPriority fuel s = some r ∧ WF r ∧
      items r = (items s).filter highPriority ∧
      (r.full = true ↔ ((items s).filter highPriority).length = Size) ∧
      (r.full = true → r.head = r.tail) ∧ (r.full = true → AllSlotsHigh r) := by
  have hS : 0 < Size := by obtain ⟨_, h, _⟩ := hwf; omega
  have hle := count_le s hwf
  have hT0 : TempOf Size ([] : List T)
      { tempBuffer := List.replicate Size default, tempHead := 0, tempTail := 0,
        tempFull := false } := by
    refine ⟨by simp, by simp, rfl, ?_⟩
    have : ¬ (0 = Size) := by omega
    simp [this]
  obtain ⟨s1, t1, hd, hwf1, hb, hh, htl, hf⟩ :=
    drainLoop_spec fuel s _ [] hwf hfuel (by simpa using hle) hT0
  simp only [List.nil_append] at hb hh hf
  generalize hhs : (items s).filter highPriority = hs at hb hh hf ⊢
  have hlen : hs.length ≤ Size := by
    have := List.length_filter_le highPriority (items s)
    rw [hhs, length_items] at this
    omega
  have hcopy : copyLoop Size t1.tempBuffer s1.buffer = t1.tempBuffer :=
    copyLoop_eq _ _ (by rw [hb]; simp; omega) hwf1.1
  obtain ⟨r, hrdef⟩ : ∃ r : CircularBuffer T Size,
      r = ⟨copyLoop Size t1.tempBuffer s1.buffer, t1.tempHead, t1.tempTail, t1.tempFull⟩ :=
    ⟨_, rfl⟩
  have hrb : r.buffer = hs ++ List.replicate (Size - hs.length) default := by
    rw [hrdef]
    show copyLoop Size t1.tempBuffer s1.buffer = _
    rw [hcopy, hb]
  have hrh : r.head = hs.length % Size := by rw [hrdef]; exact hh
  have hrt : r.tail = 0 := by rw [hrdef]; exact htl
  have hrf : r.full = decide (hs.length = Size) := by rw [hrdef]; exact hf
  have hres : removeAllLowPriority fuel s = some r := by
    rw [hrdef]
    simp only [removeAllLowPriority, hd]
  clear hrdef
  refine ⟨r, hres, ?_, ?_, ?_, ?_, ?_⟩
  · refine ⟨?_, ?_, ?_⟩
    · simp only [hrb, List.length_append, List.length_replicate]
      omega
    · rw [hrh]
      exact Nat.mod_lt _ hS
    · rw [hrt]
      exact hS
  · have hcount : count r = hs.length := by
      unfold count
      simp only [hrh, hrt, hrf]
      by_cases h1 : hs.length = Size
      · simp [h1]
      · rw [Nat.mod_eq_of_lt (by omega)]
        simp only [h1, decide_False, Bool.false_eq_true, if_false]
        split_ifs <;> omega
    unfold items
    rw [hcount]
    simp only [hrb, hrt, Nat.zero_add]
    refine Eq.trans ?_ (map_getD_append_left hs (List.replicate (Size - hs.length) default) default)
    apply List.map_congr_left
    intro i hi
    have hi1 : i < hs.length := by simpa using hi
    rw [Nat.mod_eq_of_lt (by omega)]
  · simp [hrf]
  · intro hfull
    have h1 : hs.length = Size := by simpa [hrf] using hfull
    simp [hrh, hrt, h1]
  · intro hfull i hi
    have h1 : hs.length = Size := by simpa [hrf] using hfull
    have h2 : i < hs.length := by omega
    simp only [hrb, List.getD_eq_getElem?_getD]
    rw [List.getElem?_append_left h2, List.getElem?_eq_getElem h2]
    have hmem : hs[i] ∈ (items s).filter highPriority := by rw [hhs]; exact List.getElem_mem h2
    exact (List.mem_filter.1 hmem).2

/-! ## The branches of `push` -/

theorem replaced_eq_stored_popped (r : CircularBuffer T Size) (x : T) (hf : r.full = true)
    (hht : r.head = r.tail) :
    ({ r with buffer := r.buffer.set r.tail x, tail := (r.tail + 1) % Size,
              head := (r.head + 1) % Size } : CircularBuffer T Size) = stored (popped r) x := by
  simp [stored, popped, hf, hht]

theorem push_low_not_full (fuel : Nat) (s : CircularBuffer T Size) (x : T)
    (hx : highPriority x = false) (hf : s.full = false) :
    push fuel s x = some (true, stored s x) := by
  simp [push, hx, hf, stored]

theorem push_low_full (fuel : Nat) (s : CircularBuffer T Size) (x : T)
    (hx : highPriority x = false) (hf : s.full = true) :
    push fuel s x =
      if (findLowPriority s.buffer Size Size s.tail).2 then
        some (true, { s with
          buffer := s.buffer.set (findLowPriority s.buffer Size Size s.tail).1 x,
          head := if (findLowPriority s.buffer Size Size s.tail).1 = s.head
                  then (s.head + 1) % Size else s.head })
      else some (false, s) := by
  simp only [push, hx, hf, replaceOldestWithLowPriority, Bool.false_eq_true, if_false, if_true]
  cases h : (findLowPriority s.buffer Size Size s.tail).2 <;> simp

/-- A high-priority `push` always succeeds; afterwards the removal order is the old
high-priority items followed by the new one, the oldest being dropped when there were
already `Size` of them. -/
theorem push_high_spec (fuel : Nat) (s : CircularBuffer T Size) (x : T) (hwf : WF s)
    (hfuel : count s ≤ fuel) (hx : highPriority x = true) :
    ∃ s1, push fuel s x = some (true, s1) ∧ WF s1 ∧ (s1.full = true → s1.head = s1.tail) ∧
      items s1 = (if ((items s).filter highPriority).length < Size
        then (items s).filter highPriority ++ [x]
        else ((items s).filter highPriority).tail ++ [x]) ∧
      (s1.full = true ↔ Size ≤ ((items s).filter highPriority).length + 1) := by
  obtain ⟨r, hr, hwfr, hitems, hfull, hht, hall⟩ := removeAllLowPriority_spec fuel s hwf hfuel
  have hlen : ((items s).filter highPriority).length ≤ Size := by
    rw [← hitems, length_items]; exact count_le r hwfr
  have hcr : count r = ((items s).filter highPriority).length := by
    rw [← hitems, length_items]
  cases hf : r.full
  · have hlt : ((items s).filter highPriority).length < Size := by
      rcases Nat.lt_or_ge ((items s).filter highPriority).length Size with h | h
      · exact h
      · have := hfull.2 (by omega)
        rw [hf] at this
        exact absurd this (by simp)
    refine ⟨stored r x, by simp [push, hx, hr, hf, stored], WF_stored r hwfr x, ?_, ?_, ?_⟩
    · intro h
      simpa [stored] using h
    · rw [items_stored r hwfr hf x, hitems, if_pos hlt]
    · rw [full_stored r hwfr hf x, hcr]
      omega
  · have hnf : (findLowPriority r.buffer Size Size r.tail).2 = false :=
      (found_false_iff r hwfr).2 (hall hf)
    have heq : ((items s).filter highPriority).length = Size := hfull.1 hf
    have hpos : 0 < count r := by
      obtain ⟨_, h, _⟩ := hwfr
      omega
    have hpf : (popped r).full = false := rfl
    refine ⟨stored (popped r) x, ?_, WF_stored _ (WF_popped r hwfr) x, ?_, ?_, ?_⟩
    · rw [← replaced_eq_stored_popped r x hf (hht hf)]
      simp [push, hx, hr, hf, replaceOldestWithLowPriority, hnf]
    · intro h
      simpa [stored] using h
    · rw [items_stored _ (WF_popped r hwfr) hpf x, if_neg (by omega), ← hitems,
        items_eq_cons r hwfr hpos]
      rfl
    · rw [full_stored _ (WF_popped r hwfr) hpf x, count_popped r hwfr hpos, hcr]
      omega

/-! ## More loop bodies allowed never change a result -/

theorem drainLoop_succ (fuel : Nat) :
    ∀ (s : CircularBuffer T Size) (t : Temp T) (r : CircularBuffer T Size × Temp T),
      drainLoop fuel s t = some r → drainLoop (fuel + 1) s t = some r := by
  induction fuel with
  | zero =>
    intro s t r h
    cases he : s.isEmpty
    · simp [drainLoop, he] at h
    · simpa [drainLoop, he] using h
  | succ n ih =>
    intro s t r h
    rw [drainLoop] at h ⊢
    cases he : s.isEmpty
    · simp only [he, Bool.false_eq_true, if_false] at h ⊢
      exact ih _ _ _ h
    · simpa [he] using h

theorem drainLoop_mono {fuel fuel1 : Nat} (hle : fuel ≤ fuel1) (s : CircularBuffer T Size)
    (t : Temp T) (r : CircularBuffer T Size × Temp T) (h : drainLoop fuel s t = some r) :
    drainLoop fuel1 s t = some r := by
  induction hle with
  | refl => exact h
  | step _ ih => exact drainLoop_succ _ s t r ih

theorem removeAllLowPriority_mono {fuel fuel1 : Nat} (hle : fuel ≤ fuel1)
    (s r : CircularBuffer T Size) (h : removeAllLowPriority fuel s = some r) :
    removeAllLowPriority fuel1 s = some r := by
  unfold removeAllLowPriority at h ⊢
  cases hd : drainLoop fuel s
      { tempBuffer := List.replicate Size default, tempHead := 0, tempTail := 0,
        tempFull := false } with
  | none => simp [hd] at h
  | some p =>
    rw [drainLoop_mono hle s _ p hd]
    simpa [hd] using h

theorem push_mono {fuel fuel1 : Nat} (hle : fuel ≤ fuel1) (s : CircularBuffer T Size) (x : T)
    (r : Bool × CircularBuffer T Size) (h : push fuel s x = some r) :
    push fuel1 s x = some r := by
  unfold push at h ⊢
  cases hx : highPriority x
  · simpa [hx] using h
  · simp only [hx, if_true] at h ⊢
    cases hr : removeAllLowPriority fuel s with
    | none => simp [hr] at h
    | some q =>
      rw [removeAllLowPriority_mono hle s q hr]
      simpa [hr] using h

/-! ## The representation invariant is preserved -/

theorem WF_construct (hS : 0 < Size) : WF (construct : CircularBuffer T Size) :=
  ⟨by simp [construct], hS, hS⟩

theorem WF_clear (s : CircularBuffer T Size) (hwf : WF s) : WF s.clear := by
  obtain ⟨h1, h2, _⟩ := hwf
  exact ⟨h1, by simp only [clear]; omega, by simp only [clear]; omega⟩

theorem WF_pop (s : CircularBuffer T Size) (hwf : WF s) (o : T) : WF (s.pop o).2.2 := by
  cases he : s.isEmpty
  · rw [pop_of_not_isEmpty s o he]
    exact WF_popped s hwf
  · rw [pop_of_isEmpty s o he]
    exact hwf

theorem WF_push (fuel : Nat) (s s1 : CircularBuffer T Size) (x : T) (b : Bool) (hwf : WF s)
    (h : push fuel s x = some (b, s1)) : WF s1 := by
  cases hx : highPriority x
  · cases hf : s.full
    · rw [push_low_not_full fuel s x hx hf] at h
      have : s1 = stored s x := (Prod.mk.inj (Option.some.inj h)).2.symm
      rw [this]
      exact WF_stored s hwf x
    · rw [push_low_full fuel s x hx hf] at h
      obtain ⟨h1, h2, h3⟩ := hwf
      split_ifs at h with hfound hpos
      all_goals
        have hs1 := (Prod.mk.inj (Option.some.inj h)).2
        rw [← hs1]
      · exact ⟨by simp [h1], Nat.mod_lt _ (by omega), h3⟩
      · exact ⟨by simp [h1], h2, h3⟩
      · exact ⟨h1, h2, h3⟩
  · have h1 := push_mono (Nat.le_max_left fuel (count s)) s x _ h
    obtain ⟨s2, h2, hwf2, _⟩ :=
      push_high_spec (max fuel (count s)) s x hwf (Nat.le_max_right _ _) hx
    rw [h1] at h2
    have : s1 = s2 := (Prod.mk.inj (Option.some.inj h2)).2
    rw [this]
    exact hwf2

theorem reachable_wf (hS : 0 < Size) {s : CircularBuffer T Size} (h : Reachable s) : WF s := by
  induction h with
  | construct => exact WF_construct hS
  | push fuel item b _ hp ih => exact WF_push fuel _ _ item b ih hp
  | pop item _ ih => exact WF_pop _ ih item
  | clear _ ih => exact WF_clear _ ih

theorem reachable_pushSeq (fuel : Nat) :
    ∀ (xs : List T) (s s1 : CircularBuffer T Size) (bs : List Bool),
      Reachable s → pushSeq fuel s xs = some (bs, s1) → Reachable s1 := by
  intro xs
  induction xs with
  | nil =>
    intro s s1 bs hr h
    simp only [pushSeq, Option.some.injEq, Prod.mk.injEq] at h
    rw [← h.2]
    exact hr
  | cons x xs ih =>
    intro s s1 bs hr h
    simp only [pushSeq] at h
    cases hp : push fuel s x with
    | none => simp [hp] at h
    | some p =>
      obtain ⟨b, s2⟩ := p
      simp only [hp] at h
      cases hq : pushSeq fuel s2 xs with
      | none => simp [hq] at h
      | some q =>
        obtain ⟨bs2, s3⟩ := q
        simp only [hq, Option.some.injEq, Prod.mk.injEq] at h
        rw [← h.2]
        exact ih s2 s3 bs2 (Reachable.push fuel x b hr hp) hq

/-! ## Pushing while there is room -/

theorem normal_full_iff (s : CircularBuffer T Size) (h : Normal s) :
    s.full = true ↔ count s = Size := by
  obtain ⟨⟨_, h2, h3⟩, hn⟩ := h
  unfold count
  cases hf : s.full
  · simp only [Bool.false_eq_true, if_false, false_iff]
    split_ifs <;> omega
  · have := hn hf
    simp [this]

theorem normal_construct (hS : 0 < Size) : Normal (construct : CircularBuffer T Size) :=
  ⟨WF_construct hS, by simp [construct]⟩

theorem count_construct : count (construct : CircularBuffer T Size) = 0 := by
  simp [count, construct]

theorem items_construct : items (construct : CircularBuffer T Size) = [] := by
  simp [items, count_construct]

theorem length_pushed_le (c : List T) (x : T) : (pushed c x).length ≤ c.length + 1 := by
  unfold pushed
  have := List.length_filter_le highPriority c
  split_ifs <;> simp only [List.length_append, List.length_singleton] <;> omega

theorem length_pushed_eq_iff (c : List T) (x : T) :
    (pushed c x).length = c.length + 1 ↔
      (highPriority x = true → ∀ a ∈ c, highPriority a = true) := by
  unfold pushed
  cases hx : highPriority x
  · simp
  · simp only [if_true, List.length_append, List.length_singleton, Nat.add_right_cancel_iff,
      forall_const]
    exact List.filter_length_eq_length

theorem pushed_of_length_eq (c : List T) (x : T) (h : (pushed c x).length = c.length + 1) :
    pushed c x = c ++ [x] := by
  have h1 := (length_pushed_eq_iff c x).1 h
  unfold pushed
  cases hx : highPriority x
  · simp
  · simp only [if_true]
    rw [List.filter_eq_self.2 (h1 hx)]

theorem length_foldl_pushed_le (xs : List T) :
    ∀ c : List T, (xs.foldl pushed c).length ≤ c.length + xs.length := by
  induction xs with
  | nil => intro c; simp
  | cons x xs ih =>
    intro c
    have h1 := ih (pushed c x)
    have h2 := length_pushed_le c x
    simp only [List.foldl_cons, List.length_cons]
    omega

theorem length_foldl_pushed_eq_iff (xs : List T) :
    ∀ c : List T, (xs.foldl pushed c).length = c.length + xs.length ↔
      ((∀ x ∈ xs, highPriority x = true → ∀ a ∈ c, highPriority a = true) ∧
        xs.Pairwise (fun a b => highPriority b = true → highPriority a = true)) := by
  induction xs with
  | nil => intro c; simp
  | cons x xs ih =>
    intro c
    have h1 := length_foldl_pushed_le xs (pushed c x)
    have h2 := length_pushed_le c x
    simp only [List.foldl_cons, List.length_cons, List.pairwise_cons]
    constructor
    · intro h
      have h3 : (pushed c x).length = c.length + 1 := by omega
      have h4 := (ih (pushed c x)).1 (by omega)
      have h5 := (length_pushed_eq_iff c x).1 h3
      rw [pushed_of_length_eq c x h3] at h4
      refine ⟨?_, ?_, h4.2⟩
      · intro y hy hhy a ha
        rcases List.mem_cons.1 hy with rfl | hy
        · exact h5 hhy a ha
        · exact h4.1 y hy hhy a (List.mem_append_left _ ha)
      · intro y hy hhy
        exact h4.1 y hy hhy x (by simp)
    · rintro ⟨h3, h4, h5⟩
      have h6 : (pushed c x).length = c.length + 1 :=
        (length_pushed_eq_iff c x).2 (fun hx => h3 x (by simp) hx)
      have h7 : (xs.foldl pushed (pushed c x)).length = (pushed c x).length + xs.length := by
        refine (ih (pushed c x)).2 ⟨?_, h5⟩
        rw [pushed_of_length_eq c x h6]
        intro y hy hhy a ha
        rcases List.mem_append.1 ha with ha | ha
        · exact h3 y (List.mem_cons_of_mem _ hy) hhy a ha
        · rw [List.mem_singleton.1 ha]
          exact h4 y hy hhy
      omega

theorem push_room (fuel : Nat) (s : CircularBuffer T Size) (x : T) (hn : Normal s)
    (hc : count s < Size) (hfuel : highPriority x = true → count s ≤ fuel) :
    ∃ s1, push fuel s x = some (true, s1) ∧ Normal s1 ∧ items s1 = pushed (items s) x := by
  cases hx : highPriority x
  · have hf : s.full = false := by
      cases hf : s.full
      · rfl
      · have := (normal_full_iff s hn).1 hf
        omega
    refine ⟨stored s x, push_low_not_full fuel s x hx hf, ⟨WF_stored s hn.1 x, ?_⟩, ?_⟩
    · intro h
      simpa [stored] using h
    · rw [items_stored s hn.1 hf x]
      simp [pushed, hx]
  · obtain ⟨s1, h1, hwf1, hn1, hit, _⟩ := push_high_spec fuel s x hn.1 (hfuel hx) hx
    refine ⟨s1, h1, ⟨hwf1, hn1⟩, ?_⟩
    have hlen : ((items s).filter highPriority).length < Size := by
      have := List.length_filter_le highPriority (items s)
      rw [length_items] at this
      omega
    rw [hit, if_pos hlen]
    simp [pushed, hx]

theorem pushSeq_room (fuel : Nat) (xs : List T) :
    ∀ s : CircularBuffer T Size, Normal s → count s + xs.length ≤ Size →
      ((∃ x ∈ xs, highPriority x = true) → Size ≤ fuel) →
      ∃ s1, pushSeq fuel s xs = some (List.replicate xs.length true, s1) ∧ Normal s1 ∧
        items s1 = xs.foldl pushed (items s) := by
  induction xs with
  | nil =>
    intro s hn _ _
    exact ⟨s, by simp [pushSeq], hn, by simp⟩
  | cons x xs ih =>
    intro s hn hc hfuel
    simp only [List.length_cons] at hc
    have hle := count_le s hn.1
    obtain ⟨s1, h1, hn1, hit1⟩ := push_room fuel s x hn (by omega)
      (fun hx => by have := hfuel ⟨x, by simp, hx⟩; omega)
    have hc1 : count s1 ≤ count s + 1 := by
      rw [← length_items s1, hit1, ← length_items s]
      exact length_pushed_le _ _
    obtain ⟨s2, h2, hn2, hit2⟩ := ih s1 hn1 (by omega)
      (fun ⟨y, hy, hhy⟩ => hfuel ⟨y, List.mem_cons_of_mem _ hy, hhy⟩)
    refine ⟨s2, ?_, hn2, ?_⟩
    · simp [pushSeq, h1, h2, List.replicate_succ]
    · rw [hit2, hit1]
      rfl

theorem foldl_pushed_low (xs : List T) :
    ∀ c : List T, (∀ x ∈ xs, highPriority x = false) → xs.foldl pushed c = c ++ xs := by
  induction xs with
  | nil => intro c _; simp
  | cons x xs ih =>
    intro c h
    have hx : highPriority x = false := h x (by simp)
    rw [List.foldl_cons, ih _ (fun y hy => h y (List.mem_cons_of_mem _ hy))]
    simp [pushed, hx]

theorem all_high_after_push (cs : List T) (x : T) (hx : highPriority x = true) (n : Nat) :
    ∀ y ∈ (if (cs.filter highPriority).length < n then cs.filter highPriority ++ [x]
      else (cs.filter highPriority).tail ++ [x]), highPriority y = true := by
  intro y hy
  split_ifs at hy
  · rcases List.mem_append.1 hy with h | h
    · exact (List.mem_filter.1 h).2
    · rw [List.mem_singleton.1 h]; exact hx
  · rcases List.mem_append.1 hy with h | h
    · exact (List.mem_filter.1 (List.mem_of_mem_tail h)).2
    · rw [List.mem_singleton.1 h]; exact hx

theorem countLow_eq_zero (cs : List T) (h : ∀ y ∈ cs, highPriority y = true) :
    countLow cs = 0 := by
  unfold countLow
  rw [List.length_eq_zero, List.filter_eq_nil_iff]
  intro a ha
  simp [h a ha]

theorem countLow_pos (cs : List T) (c : T) (hc : c ∈ cs) (hl : highPriority c = false) :
    0 < countLow cs := by
  unfold countLow
  apply List.length_pos_of_mem (a := c)
  exact List.mem_filter.2 ⟨hc, by simp [hl]⟩

/-! ## Where the eviction scan stops -/

theorem findLowPriority_found (buf : List T) (hS : 0 < Size) (n : Nat) :
    ∀ pos, pos < Size → (findLowPriority buf Size n pos).2 = true →
      ∃ j, j < n ∧ (findLowPriority buf Size n pos).1 = (pos + j) % Size ∧
        highPriority (buf.getD ((pos + j) % Size) default) = false ∧
        ∀ i, i < j → highPriority (buf.getD ((pos + i) % Size) default) = true := by
  induction n with
  | zero => intro pos _ h; simp [findLowPriority] at h
  | succ n ih =>
    intro pos hpos h
    unfold findLowPriority at h ⊢
    cases hp : highPriority (buf.getD pos default)
    · refine ⟨0, by omega, ?_, ?_, ?_⟩
      · simp [Nat.mod_eq_of_lt hpos]
      · rw [Nat.add_zero, Nat.mod_eq_of_lt hpos]; exact hp
      · intro i hi; omega
    · simp only [hp, Bool.not_true, Bool.false_eq_true, if_false] at h ⊢
      obtain ⟨j, hj, h1, h2, h3⟩ := ih _ (Nat.mod_lt _ hS) h
      rw [Nat.mod_add_mod] at h1 h2
      refine ⟨j + 1, by omega, ?_, ?_, ?_⟩
      · rw [h1]; congr 1; omega
      · rw [show pos + (j + 1) = pos + 1 + j by omega]; exact h2
      · intro i hi
        cases i with
        | zero => rw [Nat.add_zero, Nat.mod_eq_of_lt hpos]; exact hp
        | succ i =>
          have := h3 i (by omega)
          rw [Nat.mod_add_mod] at this
          rw [show pos + (i + 1) = pos + 1 + i by omega]
          exact this

theorem findLowPriority_pos_lt (buf : List T) (hS : 0 < Size) (n : Nat) :
    ∀ pos, pos < Size → (findLowPriority buf Size n pos).1 < Size := by
  induction n with
  | zero => intro pos hpos; simpa [findLowPriority] using hpos
  | succ n ih =>
    intro pos hpos
    unfold findLowPriority
    split_ifs
    · exact hpos
    · exact ih _ (Nat.mod_lt _ hS)

theorem scanReads_le (buf : List T) (n : Nat) :
    ∀ pos, scanReads buf Size n pos ≤ n := by
  induction n with
  | zero => intro pos; simp [scanReads]
  | succ n ih =>
    intro pos
    unfold scanReads
    split_ifs
    · omega
    · have := ih ((pos + 1) % Size)
      omega

/-- A low-priority `push` into a full buffer with a low-priority slot: the scan stops at the
first low-priority slot counted from the read position and the item is written there. -/
theorem push_low_full_found (fuel : Nat) (s : CircularBuffer T Size) (x : T) (hwf : WF s)
    (hf : s.full = true) (hx : highPriority x = false) (hlow : ¬ AllSlotsHigh s) :
    ∃ j, j < Size ∧
      highPriority (s.buffer.getD ((s.tail + j) % Size) default) = false ∧
      (∀ i, i < j → highPriority (s.buffer.getD ((s.tail + i) % Size) default) = true) ∧
      push fuel s x = some (true, { s with
        buffer := s.buffer.set ((s.tail + j) % Size) x,
        head := if (s.tail + j) % Size = s.head then (s.head + 1) % Size else s.head }) := by
  have hS : 0 < Size := by obtain ⟨_, h, _⟩ := hwf; omega
  have hfound : (findLowPriority s.buffer Size Size s.tail).2 = true := by
    cases h : (findLowPriority s.buffer Size Size s.tail).2
    · exact absurd ((found_false_iff s hwf).1 h) hlow
    · rfl
  obtain ⟨j, hj, h1, h2, h3⟩ := findLowPriority_found s.buffer hS Size s.tail hwf.2.2 hfound
  refine ⟨j, hj, h2, h3, ?_⟩
  rw [push_low_full fuel s x hx hf, if_pos hfound, h1]

/-! ## Overwriting a low-priority slot -/

theorem getD_items (s : CircularBuffer T Size) (i : Nat) (hi : i < count s) :
    (items s).getD i default = s.buffer.getD ((s.tail + i) % Size) default := by
  have h : i < (items s).length := by rw [length_items]; exact hi
  rw [List.getD_eq_getElem?_getD, List.getElem?_eq_getElem h]
  simp [items]

theorem items_set_slot (s : CircularBuffer T Size) (hwf : WF s) (x : T) (j : Nat)
    (hj : j < count s) :
    items ({ s with buffer := s.buffer.set ((s.tail + j) % Size) x } : CircularBuffer T Size) =
      (items s).set j x := by
  have hle := count_le s hwf
  obtain ⟨h1, h2, h3⟩ := hwf
  have hS : 0 < Size := by omega
  apply List.ext_getElem
  · simp [items, count]
  · intro i hi1 hi2
    have hi : i < count s := by simpa [items] using hi2
    rw [List.getElem_set]
    simp only [items, List.getElem_map, List.getElem_range, List.getD_eq_getElem?_getD]
    by_cases hji : j = i
    · subst hji
      rw [if_pos rfl, List.getElem?_set_self (by rw [h1]; exact Nat.mod_lt _ hS)]
      rfl
    · rw [if_neg hji]
      have hne : (s.tail + j) % Size ≠ (s.tail + i) % Size := by
        rw [add_mod_eq h3 (by omega), add_mod_eq h3 (by omega)]
        split_ifs <;> omega
      rw [List.getElem?_set_ne hne]

theorem replaceFirstLow_eq_set (x : T) :
    ∀ (l : List T) (j : Nat), j < l.length → highPriority (l.getD j default) = false →
      (∀ i, i < j → highPriority (l.getD i default) = true) →
      replaceFirstLow l x = l.set j x := by
  intro l
  induction l with
  | nil => intro j hj; simp at hj
  | cons c cs ih =>
    intro j hj hlow hhigh
    cases j with
    | zero =>
      have hc : highPriority c = false := by simpa using hlow
      simp [replaceFirstLow, hc]
    | succ j =>
      have hc : highPriority c = true := by simpa using hhigh 0 (by omega)
      have := ih j (by simpa using hj) (by simpa using hlow)
        (fun i hi => by simpa using hhigh (i + 1) (by omega))
      simp [replaceFirstLow, hc, this]

/-! ## Termination of the purge loop and the indices it writes -/

theorem drainLoop_terminates (fuel : Nat) :
    ∀ (s : CircularBuffer T Size) (t : Temp T), WF s → count s ≤ fuel →
      ∃ s1 t1, drainLoop fuel s t = some (s1, t1) ∧ s1.isEmpty = true := by
  induction fuel with
  | zero =>
    intro s t hwf hc
    have he := (isEmpty_iff_count s hwf).2 (by omega)
    exact ⟨s, t, by simp [drainLoop, he], he⟩
  | succ fuel ih =>
    intro s t hwf hc
    cases he : s.isEmpty
    · have hpos := (isEmpty_false_iff_count s hwf).1 he
      have hcp := count_popped s hwf hpos
      simp only [drainLoop, he, pop_of_not_isEmpty s default he, Bool.false_eq_true, if_false]
      exact ih (popped s) _ (WF_popped s hwf) (by omega)
    · exact ⟨s, t, by simp [drainLoop, he], he⟩

theorem drainWrites_spec (fuel : Nat) :
    ∀ (s : CircularBuffer T Size) (t : Temp T) (m : Nat), WF s → count s ≤ fuel →
      m + count s ≤ Size → (0 < count s → t.tempHead = m) →
      drainWrites fuel s t = List.range' m ((items s).filter highPriority).length := by
  induction fuel with
  | zero =>
    intro s t m hwf hc _ _
    have hc0 : count s = 0 := by omega
    simp [drainWrites, items, hc0]
  | succ fuel ih =>
    intro s t m hwf hc hle hm
    by_cases hc0 : count s = 0
    · have he := (isEmpty_iff_count s hwf).2 hc0
      simp [drainWrites, he, items, hc0]
    · have hpos : 0 < count s := by omega
      have he := (isEmpty_false_iff_count s hwf).2 hpos
      have hcp := count_popped s hwf hpos
      have hmt := hm hpos
      simp only [drainWrites, he, pop_of_not_isEmpty s default he, Bool.false_eq_true, if_false]
      rw [items_eq_cons s hwf hpos]
      generalize s.buffer.getD s.tail default = x
      cases hp : highPriority x
      · simp only [Bool.false_eq_true, if_false, List.filter_cons, hp]
        exact ih (popped s) t m (WF_popped s hwf) (by omega) (by omega)
          (fun _ => hmt)
      · simp only [if_true, List.filter_cons, hp, List.length_cons, List.range'_succ]
        rw [hmt]
        congr 1
        refine ih (popped s) _ (m + 1) (WF_popped s hwf) (by omega) (by omega) ?_
        intro h
        show (m + 1) % Size = m + 1
        exact Nat.mod_eq_of_lt (by omega)

/-! ## High-priority items leave the buffer first -/

theorem pairwise_of_all_high (l : List T) (h : ∀ y ∈ l, highPriority y = true) :
    l.Pairwise (fun a b => highPriority b = true → highPriority a = true) := by
  induction l with
  | nil => exact List.Pairwise.nil
  | cons a l ih =>
    refine List.pairwise_cons.2 ⟨fun b _ _ => h a (by simp), ?_⟩
    exact ih (fun y hy => h y (List.mem_cons_of_mem _ hy))

theorem pairwise_append_low (l : List T) (x : T) (hx : highPriority x = false)
    (h : l.Pairwise (fun a b => highPriority b = true → highPriority a = true)) :
    (l ++ [x]).Pairwise (fun a b => highPriority b = true → highPriority a = true) := by
  refine List.pairwise_append.2 ⟨h, List.pairwise_singleton _ _, ?_⟩
  intro a _ b hb hhb
  rw [List.mem_singleton.1 hb, hx] at hhb
  exact absurd hhb (by simp)

theorem pairwise_replaceFirstLow (x : T) (hx : highPriority x = false) :
    ∀ l : List T, l.Pairwise (fun a b => highPriority b = true → highPriority a = true) →
      (replaceFirstLow l x).Pairwise
        (fun a b => highPriority b = true → highPriority a = true) := by
  intro l
  induction l with
  | nil => intro _; exact List.Pairwise.nil
  | cons c cs ih =>
    intro h
    obtain ⟨h1, h2⟩ := List.pairwise_cons.1 h
    cases hc : highPriority c
    · simp only [replaceFirstLow, hc, Bool.false_eq_true, if_false]
      refine List.pairwise_cons.2 ⟨?_, h2⟩
      intro b hb hhb
      have := h1 b hb hhb
      rw [hc] at this
      exact absurd this (by simp)
    · simp only [replaceFirstLow, hc, if_true]
      exact List.pairwise_cons.2 ⟨fun _ _ _ => hc, ih h2⟩

theorem items_after_slip (s : CircularBuffer T Size) (hwf : WF s) (hf : s.full = true)
    (hht : s.head = s.tail) (x : T) :
    items ({ s with buffer := s.buffer.set s.tail x, head := (s.head + 1) % Size } :
      CircularBuffer T Size) = [x] := by
  obtain ⟨h1, h2, h3⟩ := hwf
  have hc : count ({ s with buffer := s.buffer.set s.tail x, head := (s.head + 1) % Size } :
      CircularBuffer T Size) = 1 := by
    unfold count
    simp only [hf, hht, succ_mod_eq h3, if_true]
    split_ifs <;> omega
  unfold items
  rw [hc]
  have hlt : s.tail < s.buffer.length := by omega
  simp [List.range_succ, Nat.mod_eq_of_lt h3, List.getElem?_set_self hlt]

theorem orderInv_push_low_full (s : CircularBuffer T Size) (x : T) (hinv : OrderInv s)
    (hf : s.full = true) (hx : highPriority x = false) (j : Nat) (hj : j < Size)
    (hlow : highPriority (s.buffer.getD ((s.tail + j) % Size) default) = false)
    (hhigh : ∀ i, i < j → highPriority (s.buffer.getD ((s.tail + i) % Size) default) = true) :
    OrderInv ({ s with
      buffer := s.buffer.set ((s.tail + j) % Size) x,
      head := if (s.tail + j) % Size = s.head then (s.head + 1) % Size else s.head } :
      CircularBuffer T Size) := by
  obtain ⟨hwf, hpw, htl⟩ := hinv
  have hS : 0 < Size := by obtain ⟨_, h, _⟩ := hwf; omega
  have hle := count_le s hwf
  by_cases hslip : j = 0 ∧ s.head = s.tail
  · obtain ⟨hj0, hht⟩ := hslip
    subst hj0
    have hp : (s.tail + 0) % Size = s.tail := by
      rw [Nat.add_zero, Nat.mod_eq_of_lt hwf.2.2]
    rw [hp, if_pos hht.symm]
    refine ⟨⟨by simp [hwf.1], Nat.mod_lt _ hS, hwf.2.2⟩, ?_, ?_⟩
    · rw [items_after_slip s hwf hf hht x]
      exact List.pairwise_singleton _ _
    · intro _ _
      have hlt : s.tail < s.buffer.length := by rw [hwf.1]; exact hwf.2.2
      simp [List.getElem?_set_self hlt, hx]
  · have hjc : j < count s ∧ (s.tail + j) % Size ≠ s.head := by
      by_cases hj0 : j = 0
      · subst hj0
        have hne : s.head ≠ s.tail := fun h => hslip ⟨rfl, h⟩
        obtain ⟨_, hh, ht⟩ := hwf
        rw [Nat.add_zero, Nat.mod_eq_of_lt ht]
        refine ⟨?_, Ne.symm hne⟩
        unfold count
        split_ifs <;> omega
      · have h0 := hhigh 0 (by omega)
        rw [Nat.add_zero, Nat.mod_eq_of_lt hwf.2.2] at h0
        have hht : s.head = s.tail := by
          by_contra hne
          rw [htl hf hne] at h0
          exact absurd h0 (by simp)
        obtain ⟨_, hh, ht⟩ := hwf
        have hc : count s = Size := by
          unfold count
          simp [hht, hf]
        refine ⟨by omega, ?_⟩
        rw [add_mod_eq ht (by omega)]
        split_ifs <;> omega
    obtain ⟨hjc, hne⟩ := hjc
    rw [if_neg hne]
    have hit := items_set_slot s hwf x j hjc
    have hrep := replaceFirstLow_eq_set x (items s) j (by rw [length_items]; exact hjc)
      (by rw [getD_items s j hjc]; exact hlow)
      (fun i hi => by rw [getD_items s i (by omega)]; exact hhigh i hi)
    refine ⟨⟨by simp [hwf.1], hwf.2.1, hwf.2.2⟩, ?_, ?_⟩
    · have : items ({ s with buffer := s.buffer.set ((s.tail + j) % Size) x, head := s.head } :
          CircularBuffer T Size) = replaceFirstLow (items s) x := by
        rw [hrep]; exact hit
      rw [this]
      exact pairwise_replaceFirstLow x hx _ hpw
    · intro _ hne1
      have hne2 : s.head ≠ s.tail := hne1
      have hl := htl hf hne2
      have hj0 : j = 0 := by
        rcases Nat.eq_zero_or_pos j with h | h
        · exact h
        · have h0 := hhigh 0 h
          rw [Nat.add_zero, Nat.mod_eq_of_lt hwf.2.2, hl] at h0
          exact absurd h0 (by simp)
      subst hj0
      have hlt : s.tail < s.buffer.length := by rw [hwf.1]; exact hwf.2.2
      simp [Nat.mod_eq_of_lt hwf.2.2, List.getElem?_set_self hlt, hx]

theorem orderInv_construct (hS : 0 < Size) : OrderInv (construct : CircularBuffer T Size) := by
  refine ⟨WF_construct hS, ?_, ?_⟩
  · rw [items_construct]; exact List.Pairwise.nil
  · intro h; simp [construct] at h

theorem orderInv_clear (s : CircularBuffer T Size) (hinv : OrderInv s) : OrderInv s.clear := by
  refine ⟨WF_clear s hinv.1, ?_, ?_⟩
  · have : items s.clear = [] := by simp [items, count, clear]
    rw [this]; exact List.Pairwise.nil
  · intro h; simp [clear] at h

theorem orderInv_pop (s : CircularBuffer T Size) (o : T) (hinv : OrderInv s) :
    OrderInv (s.pop o).2.2 := by
  cases he : s.isEmpty
  · rw [pop_of_not_isEmpty s o he]
    have hpos := (isEmpty_false_iff_count s hinv.1).1 he
    refine ⟨WF_popped s hinv.1, ?_, ?_⟩
    · have h := hinv.2.1
      rw [items_eq_cons s hinv.1 hpos] at h
      exact (List.pairwise_cons.1 h).2
    · intro h; simp [popped] at h
  · rw [pop_of_isEmpty s o he]
    exact hinv

theorem orderInv_push (fuel : Nat) (s s1 : CircularBuffer T Size) (x : T) (b : Bool)
    (hinv : OrderInv s) (h : push fuel s x = some (b, s1)) : OrderInv s1 := by
  have hwf := hinv.1
  cases hx : highPriority x
  · cases hf : s.full
    · rw [push_low_not_full fuel s x hx hf] at h
      have hs1 : s1 = stored s x := (Prod.mk.inj (Option.some.inj h)).2.symm
      rw [hs1]
      refine ⟨WF_stored s hwf x, ?_, ?_⟩
      · rw [items_stored s hwf hf x]
        exact pairwise_append_low _ x hx hinv.2.1
      · intro hfull hne
        have : (stored s x).head = (stored s x).tail := by simpa [stored] using hfull
        exact absurd this hne
    · by_cases hall : AllSlotsHigh s
      · rw [push_low_full fuel s x hx hf, (found_false_iff s hwf).2 hall] at h
        simp only [Bool.false_eq_true, if_false] at h
        have hs1 : s = s1 := (Prod.mk.inj (Option.some.inj h)).2
        rw [← hs1]
        exact hinv
      · obtain ⟨j, hj, h1, h2, h3⟩ := push_low_full_found fuel s x hwf hf hx hall
        rw [h3] at h
        have hs1 := (Prod.mk.inj (Option.some.inj h)).2
        rw [← hs1]
        exact orderInv_push_low_full s x hinv hf hx j hj h1 h2
  · have h1 := push_mono (Nat.le_max_left fuel (count s)) s x _ h
    obtain ⟨s2, h2, hwf2, hn2, hit2, _⟩ :=
      push_high_spec (max fuel (count s)) s x hwf (Nat.le_max_right _ _) hx
    rw [h1] at h2
    have hs : s1 = s2 := (Prod.mk.inj (Option.some.inj h2)).2
    rw [hs]
    refine ⟨hwf2, ?_, fun hfull hne => absurd (hn2 hfull) hne⟩
    rw [hit2]
    exact pairwise_of_all_high _ (all_high_after_push (items s) x hx Size)

theorem reachable_orderInv (hS : 0 < Size) {s : CircularBuffer T Size} (h : Reachable s) :
    OrderInv s := by
  induction h with
  | construct => exact orderInv_construct hS
  | push fuel item b _ hp ih => exact orderInv_push fuel _ _ item b ih hp
  | pop item _ ih => exact orderInv_pop _ item ih
  | clear _ ih => exact orderInv_clear _ ih

end Vo2.CircularBuffer

/-! ## The claims -/

namespace Vo2

open CircularBuffer

variable {T : Type} [HasPriority T] [Inhabited T] {Size : Nat}

/-- Claim C1 (round trip): for every capacity `Size ≥ 1` and every list `xs` of `Size`
low-priority items, pushing `xs` in order into the freshly constructed buffer returns true
every time, after which `Size` pops return true and yield exactly `xs` in that order and
one more pop returns false. -/
theorem C1_round_trip (fuel : Nat) (xs : List T) (hN : 1 ≤ Size) (hlen : xs.length = Size)
    (hlow : ∀ x ∈ xs, highPriority x = false) :
    ∃ s1 : CircularBuffer T Size,
      pushSeq fuel construct xs = some (List.replicate Size true, s1) ∧
      RemovalOrder s1 xs := by
  obtain ⟨s1, h1, hn1, hit⟩ := pushSeq_room fuel xs (construct : CircularBuffer T Size)
    (normal_construct hN) (by rw [count_construct]; omega)
    (fun ⟨x, hx, hhx⟩ => by rw [hlow x hx] at hhx; exact absurd hhx (by simp))
  refine ⟨s1, by rw [h1, hlen], ?_⟩
  rw [removalOrder_iff s1 hn1.1, hit, items_construct, foldl_pushed_low xs [] hlow]
  rfl

/-- Witness for C1: capacity 2, two low-priority items. -/
theorem C1_round_trip_witness :
    ∃ s1 : CircularBuffer Msg 2,
      pushSeq 0 construct [lo 1, lo 2] = some (List.replicate 2 true, s1) ∧
      RemovalOrder s1 [lo 1, lo 2] :=
  C1_round_trip 0 [lo 1, lo 2] (by decide) rfl (by decide)

/-- Claim C2 evaluated on the code: with capacity 3, four low-priority pushes from the
constructed buffer all return true and reach a state whose full flag is set although the
read position (0) differs from the write position (1); one pop returns the newest item and
the next pop already returns false, so the buffer does not hold 3 items. -/
theorem C2_full_flag_without_capacity_items :
    ∃ s : CircularBuffer Msg 3,
      pushSeq 0 construct [lo 1, lo 2, lo 3, lo 4] = some ([true, true, true, true], s) ∧
      s = ⟨[lo 4, lo 2, lo 3], 1, 0, true⟩ ∧
      Reachable s ∧ s.isFull = true ∧ s.tail ≠ s.head ∧ RemovalOrder s [lo 4] := by
  have h : pushSeq 0 (construct : CircularBuffer Msg 3) [lo 1, lo 2, lo 3, lo 4] =
      some ([true, true, true, true], ⟨[lo 4, lo 2, lo 3], 1, 0, true⟩) := by decide
  exact ⟨_, h, rfl, reachable_pushSeq 0 _ _ _ _ Reachable.construct h, rfl, by decide,
    ⟨rfl, rfl, rfl⟩⟩

/-- Claim C3: from every well-formed state `push` returns, and it returns false if and only
if the full flag is set, every one of the `Size` storage slots is high-priority and the new
item is low-priority; in particular a high-priority push returns true. -/
theorem C3_push_false_iff (fuel : Nat) (s : CircularBuffer T Size) (x : T) (hwf : WF s)
    (hfuel : Size ≤ fuel) :
    ∃ b s1, push fuel s x = some (b, s1) ∧
      (b = false ↔ (s.full = true ∧ AllSlotsHigh s ∧ highPriority x = false)) ∧
      (highPriority x = true → b = true) := by
  have hle := count_le s hwf
  cases hx : highPriority x
  · cases hf : s.full
    · exact ⟨true, stored s x, push_low_not_full fuel s x hx hf, by simp, by simp⟩
    · rw [push_low_full fuel s x hx hf]
      cases hfound : (findLowPriority s.buffer Size Size s.tail).2
      · have hall := (found_false_iff s hwf).1 hfound
        exact ⟨false, s, by simp, by simp [hall], by simp⟩
      · have hall : ¬ AllSlotsHigh s := by
          intro h
          rw [(found_false_iff s hwf).2 h] at hfound
          exact absurd hfound (by simp)
        exact ⟨true, _, by simp; rfl, by simp [hall], by simp⟩
  · obtain ⟨s1, h1, _⟩ := push_high_spec fuel s x hwf (by omega) hx
    exact ⟨true, s1, h1, by simp, by simp⟩

/-- Witness for C3: a full capacity-2 buffer of high-priority items and a low-priority item. -/
theorem C3_push_false_iff_witness :
    ∃ b s1, push 2 (⟨[hi 1, hi 2], 0, 0, true⟩ : CircularBuffer Msg 2) (lo 3) = some (b, s1) ∧
      (b = false ↔ ((⟨[hi 1, hi 2], 0, 0, true⟩ : CircularBuffer Msg 2).full = true ∧
        AllSlotsHigh (⟨[hi 1, hi 2], 0, 0, true⟩ : CircularBuffer Msg 2) ∧
        highPriority (lo 3) = false)) ∧
      (highPriority (lo 3) = true → b = true) :=
  C3_push_false_iff 2 ⟨[hi 1, hi 2], 0, 0, true⟩ (lo 3) (by decide) (by decide)

/-- Claim C4 (atomicity of rejection): whenever `push` returns false the whole state (storage,
read position, write position, full flag) is the state before the call; in particular a
low-priority push into a full buffer whose slots are all high-priority returns false and
leaves the buffer unchanged. -/
theorem C4_rejected_push_unchanged (fuel : Nat) (s : CircularBuffer T Size) (x : T) :
    (∀ s1, push fuel s x = some (false, s1) → s1 = s) ∧
    (WF s → s.full = true → AllSlotsHigh s → highPriority x = false →
      push fuel s x = some (false, s)) := by
  constructor
  · intro s1 h
    cases hx : highPriority x
    · cases hf : s.full
      · rw [push_low_not_full fuel s x hx hf] at h
        simp at h
      · rw [push_low_full fuel s x hx hf] at h
        cases hfound : (findLowPriority s.buffer Size Size s.tail).2
        · simp only [hfound, Bool.false_eq_true, if_false] at h
          exact (Prod.mk.inj (Option.some.inj h)).2.symm
        · simp [hfound] at h
    · unfold push at h
      simp only [hx, if_true] at h
      cases hr : removeAllLowPriority fuel s with
      | none => simp [hr] at h
      | some r =>
        simp only [hr] at h
        cases hf : r.full
        · simp [hf] at h
        · simp only [hf, if_true, replaceOldestWithLowPriority, hx] at h
          cases hfound : (findLowPriority r.buffer Size Size r.tail).2 <;> simp [hfound] at h
  · intro hwf hf hall hx
    rw [push_low_full fuel s x hx hf, (found_false_iff s hwf).2 hall]
    simp

/-- Witness for C4: a low-priority push into a full capacity-2 buffer of high-priority items. -/
theorem C4_rejected_push_unchanged_witness :
    push 0 (⟨[hi 1, hi 2], 1, 1, true⟩ : CircularBuffer Msg 2) (lo 3) =
      some (false, ⟨[hi 1, hi 2], 1, 1, true⟩) :=
  (C4_rejected_push_unchanged 0 (⟨[hi 1, hi 2], 1, 1, true⟩ : CircularBuffer Msg 2) (lo 3)).2
    (by decide) rfl (by decide) rfl

/-- Claim C5: for every full buffer (full flag set, read position equal to write position)
whose `Size` items `hs`, in removal order, are all high-priority, pushing a high-priority
item `x` returns true, the buffer is still full, and the removal order afterwards is
`hs` without its first (least recently inserted) item, followed by `x`. -/
theorem C5_high_push_evicts_oldest (fuel : Nat) (s : CircularBuffer T Size) (x : T)
    (hs : List T) (hwf : WF s) (hfull : s.full = true) (hpos : s.tail = s.head)
    (horder : RemovalOrder s hs) (hhigh : ∀ h ∈ hs, highPriority h = true)
    (hx : highPriority x = true) (hfuel : Size ≤ fuel) :
    ∃ s1, push fuel s x = some (true, s1) ∧ s1.isFull = true ∧ hs.length = Size ∧
      RemovalOrder s1 (hs.tail ++ [x]) := by
  have hle := count_le s hwf
  have hits : hs = items s := (removalOrder_iff s hwf hs).1 horder
  have hcount : count s = Size := (normal_full_iff s ⟨hwf, fun _ => hpos.symm⟩).1 hfull
  have hlen : hs.length = Size := by rw [hits, length_items, hcount]
  have hfilter : (items s).filter highPriority = hs := by
    rw [← hits]
    exact List.filter_eq_self.2 hhigh
  obtain ⟨s1, h1, hwf1, _, hit, hf1⟩ := push_high_spec fuel s x hwf (by omega) hx
  rw [hfilter] at hit hf1
  refine ⟨s1, h1, hf1.2 (by omega), hlen, ?_⟩
  rw [removalOrder_iff s1 hwf1, hit, if_neg (by omega)]

/-- Witness for C5: capacity 3, full of high-priority items stored from slot 1 on. -/
theorem C5_high_push_evicts_oldest_witness :
    ∃ s1, push 3 (⟨[hi 3, hi 1, hi 2], 1, 1, true⟩ : CircularBuffer Msg 3) (hi 4) =
        some (true, s1) ∧ s1.isFull = true ∧ [hi 1, hi 2, hi 3].length = 3 ∧
      RemovalOrder s1 ([hi 1, hi 2, hi 3].tail ++ [hi 4]) :=
  C5_high_push_evicts_oldest 3 ⟨[hi 3, hi 1, hi 2], 1, 1, true⟩ (hi 4) [hi 1, hi 2, hi 3]
    (by decide) rfl rfl ⟨rfl, rfl, rfl, rfl, rfl, rfl, rfl⟩ (by decide) rfl (by decide)

/-- Claim C6: for every buffer state with read and write positions below `Size` in which a
set full flag comes with equal positions, and whose items in removal order are `cs`,
pushing a high-priority item `x` returns true; afterwards the removal order is the
high-priority members of `cs` in their original relative order followed by `x`, the oldest
of them being dropped when there were already `Size` of them, and no low-priority item
remains resident. -/
theorem C6_high_push_purges_low (fuel : Nat) (s : CircularBuffer T Size) (x : T)
    (cs : List T) (hwf : WF s) (hnormal : s.full = true → s.tail = s.head)
    (horder : RemovalOrder s cs) (hx : highPriority x = true) (hfuel : Size ≤ fuel) :
    ∃ s1, push fuel s x = some (true, s1) ∧
      RemovalOrder s1
        (if (cs.filter highPriority).length < Size then cs.filter highPriority ++ [x]
         else (cs.filter highPriority).tail ++ [x]) ∧
      ∀ y ∈ (if (cs.filter highPriority).length < Size then cs.filter highPriority ++ [x]
         else (cs.filter highPriority).tail ++ [x]), highPriority y = true := by
  have hle := count_le s hwf
  have hits : cs = items s := (removalOrder_iff s hwf cs).1 horder
  obtain ⟨s1, h1, hwf1, _, hit, _⟩ := push_high_spec fuel s x hwf (by omega) hx
  rw [← hits] at hit
  exact ⟨s1, h1, (removalOrder_iff s1 hwf1 _).2 hit.symm, all_high_after_push cs x hx Size⟩

/-- Witness for C6: capacity 3 holding low, high, low from slot 2 on. -/
theorem C6_high_push_purges_low_witness :
    ∃ s1, push 3 (⟨[hi 2, lo 3, lo 1], 2, 2, true⟩ : CircularBuffer Msg 3) (hi 4) =
        some (true, s1) ∧
      RemovalOrder s1
        (if ([lo 1, hi 2, lo 3].filter highPriority).length < 3
         then [lo 1, hi 2, lo 3].filter highPriority ++ [hi 4]
         else ([lo 1, hi 2, lo 3].filter highPriority).tail ++ [hi 4]) ∧
      ∀ y ∈ (if ([lo 1, hi 2, lo 3].filter highPriority).length < 3
         then [lo 1, hi 2, lo 3].filter highPriority ++ [hi 4]
         else ([lo 1, hi 2, lo 3].filter highPriority).tail ++ [hi 4]),
        highPriority y = true :=
  C6_high_push_purges_low 3 ⟨[hi 2, lo 3, lo 1], 2, 2, true⟩ (hi 4) [lo 1, hi 2, lo 3]
    (by decide) (fun _ => rfl) ⟨rfl, rfl, rfl, rfl, rfl, rfl, rfl⟩ rfl (by decide)

/-- Claim C7: for every reachable buffer state in which `isFull()` is true and at least one
resident item (an item of the removal order `cs`) is low-priority, pushing a high-priority
item returns true and the number of resident low-priority items afterwards is strictly
smaller than before. -/
theorem C7_high_push_decreases_low_count (fuel : Nat) (s : CircularBuffer T Size) (x : T)
    (cs : List T) (hN : 1 ≤ Size) (hreach : Reachable s) (hfull : s.isFull = true)
    (horder : RemovalOrder s cs) (hlow : ∃ c ∈ cs, highPriority c = false)
    (hx : highPriority x = true) (hfuel : Size ≤ fuel) :
    ∃ s1 cs1, push fuel s x = some (true, s1) ∧ RemovalOrder s1 cs1 ∧
      countLow cs1 < countLow cs := by
  have hwf := reachable_wf hN hreach
  have hle := count_le s hwf
  obtain ⟨s1, h1, hwf1, _, hit, _⟩ := push_high_spec fuel s x hwf (by omega) hx
  obtain ⟨c, hc, hcl⟩ := hlow
  refine ⟨s1, items s1, h1, (removalOrder_iff s1 hwf1 _).2 rfl, ?_⟩
  rw [countLow_eq_zero (items s1) (by rw [hit]; exact all_high_after_push (items s) x hx Size)]
  exact countLow_pos cs c hc hcl

/-- Witness for C7: capacity 2, the constructed buffer after two low-priority pushes. -/
theorem C7_high_push_decreases_low_count_witness :
    ∃ s1 cs1, push 2 (⟨[lo 1, lo 2], 0, 0, true⟩ : CircularBuffer Msg 2) (hi 3) =
        some (true, s1) ∧ RemovalOrder s1 cs1 ∧ countLow cs1 < countLow [lo 1, lo 2] :=
  C7_high_push_decreases_low_count 2 ⟨[lo 1, lo 2], 0, 0, true⟩ (hi 3) [lo 1, lo 2]
    (by decide)
    (reachable_pushSeq 0 [lo 1, lo 2] construct _ [true, true] Reachable.construct
      (by decide))
    rfl ⟨rfl, rfl, rfl, rfl, rfl⟩ ⟨lo 1, by decide, rfl⟩ rfl (by decide)

/-- Counterexample to C8 as stated: with capacity 2, pushing a low-priority item and then a
high-priority item from the constructed buffer succeeds twice, yet after the second
successful push `isFull()` is false (the high-priority push removed the low-priority item). -/
theorem C8_counterexample :
    pushSeq 2 (construct : CircularBuffer Msg 2) [lo 1, hi 2] =
        some ([true, true], ⟨[hi 2, lo 0], 1, 0, false⟩) ∧
      (⟨[hi 2, lo 0], 1, 0, false⟩ : CircularBuffer Msg 2).isFull = false := by
  decide

/-- Claim C8, amended: starting from the constructed buffer of capacity `Size ≥ 1`, every
sequence of at most `Size` pushes (items of arbitrary priority, no pops) succeeds throughout;
`isFull()` is false after fewer than `Size` pushes, and after the `Size`-th push it is true
exactly when no high-priority item was pushed after a low-priority one. -/
theorem C8_full_after_capacity_pushes (fuel : Nat) (xs : List T) (hN : 1 ≤ Size)
    (hlen : xs.length ≤ Size) (hfuel : Size ≤ fuel) :
    ∃ s1 : CircularBuffer T Size,
      pushSeq fuel construct xs = some (List.replicate xs.length true, s1) ∧
      (xs.length < Size → s1.isFull = false) ∧
      (xs.length = Size →
        (s1.isFull = true ↔
          xs.Pairwise (fun a b => highPriority b = true → highPriority a = true))) := by
  obtain ⟨s1, h1, hn1, hit⟩ := pushSeq_room fuel xs (construct : CircularBuffer T Size)
    (normal_construct hN) (by rw [count_construct]; omega) (fun _ => hfuel)
  rw [items_construct] at hit
  have hcount : count s1 = (xs.foldl pushed []).length := by rw [← hit, length_items]
  have hbound := length_foldl_pushed_le xs ([] : List T)
  have hiff := length_foldl_pushed_eq_iff xs ([] : List T)
  simp only [List.length_nil, Nat.zero_add, List.not_mem_nil, false_implies, implies_true,
    true_and] at hbound hiff
  refine ⟨s1, h1, ?_, ?_⟩
  · intro hlt
    cases hf : s1.isFull
    · rfl
    · have := (normal_full_iff s1 hn1).1 hf
      omega
  · intro heq
    show s1.full = true ↔ _
    rw [normal_full_iff s1 hn1, hcount, ← heq]
    exact hiff

/-- Witness for C8: capacity 2, two high-priority pushes. -/
theorem C8_full_after_capacity_pushes_witness :
    ∃ s1 : CircularBuffer Msg 2,
      pushSeq 2 construct [hi 1, hi 2] = some (List.replicate [hi 1, hi 2].length true, s1) ∧
      ([hi 1, hi 2].length < 2 → s1.isFull = false) ∧
      ([hi 1, hi 2].length = 2 →
        (s1.isFull = true ↔
          [hi 1, hi 2].Pairwise (fun a b => highPriority b = true → highPriority a = true))) :=
  C8_full_after_capacity_pushes 2 [hi 1, hi 2] (by decide) (by decide) (by decide)

/-- Counterexample to C9 as stated: with capacity 2, the state reached by two low-priority
pushes has `isFull()` true; pushing a high-priority item succeeds and leaves `isFull()`
false, without any pop in between. -/
theorem C9_counterexample :
    Reachable (⟨[lo 1, lo 2], 0, 0, true⟩ : CircularBuffer Msg 2) ∧
      (⟨[lo 1, lo 2], 0, 0, true⟩ : CircularBuffer Msg 2).isFull = true ∧
      push 2 (⟨[lo 1, lo 2], 0, 0, true⟩ : CircularBuffer Msg 2) (hi 3) =
        some (true, ⟨[hi 3, lo 0], 1, 0, false⟩) ∧
      (⟨[hi 3, lo 0], 1, 0, false⟩ : CircularBuffer Msg 2).isFull = false :=
  ⟨reachable_pushSeq 0 [lo 1, lo 2] construct _ [true, true] Reachable.construct (by decide),
    rfl, by decide, rfl⟩

/-- Claim C9, amended: for every reachable state with the full flag set, `push` returns;
after the push of a low-priority item `isFull()` is still true, whether the push succeeds
or is rejected; after the push of a high-priority item, which first removes the resident
low-priority items, `isFull()` is true exactly when at least `Size - 1` of the resident
items `cs` were high-priority. -/
theorem C9_full_after_push (fuel : Nat) (s : CircularBuffer T Size) (x : T) (cs : List T)
    (hN : 1 ≤ Size) (hreach : Reachable s) (hfull : s.isFull = true)
    (horder : RemovalOrder s cs) (hfuel : Size ≤ fuel) :
    ∃ b s1, push fuel s x = some (b, s1) ∧
      (highPriority x = false → s1.isFull = true) ∧
      (highPriority x = true →
        (s1.isFull = true ↔ Size ≤ (cs.filter highPriority).length + 1)) := by
  have hwf := reachable_wf hN hreach
  have hle := count_le s hwf
  have hits : cs = items s := (removalOrder_iff s hwf cs).1 horder
  have hf : s.full = true := hfull
  cases hx : highPriority x
  · rw [push_low_full fuel s x hx hf]
    cases hfound : (findLowPriority s.buffer Size Size s.tail).2
    · exact ⟨false, s, by simp, fun _ => hfull, by simp⟩
    · refine ⟨true, _, rfl, ?_, by simp⟩
      intro _
      exact hfull
  · obtain ⟨s1, h1, _, _, _, hf1⟩ := push_high_spec fuel s x hwf (by omega) hx
    rw [← hits] at hf1
    exact ⟨true, s1, h1, by simp, fun _ => hf1⟩

/-- Witness for C9: capacity 2, the constructed buffer after a high- and a low-priority push;
a further high-priority push keeps the buffer full. -/
theorem C9_full_after_push_witness :
    ∃ b s1, push 2 (⟨[hi 1, lo 2], 0, 0, true⟩ : CircularBuffer Msg 2) (hi 3) = some (b, s1) ∧
      (highPriority (hi 3) = false → s1.isFull = true) ∧
      (highPriority (hi 3) = true →
        (s1.isFull = true ↔ 2 ≤ ([hi 1, lo 2].filter highPriority).length + 1)) :=
  C9_full_after_push 2 ⟨[hi 1, lo 2], 0, 0, true⟩ (hi 3) [hi 1, lo 2] (by decide)
    (reachable_pushSeq 2 [hi 1, lo 2] construct _ [true, true] Reachable.construct
      (by decide))
    rfl ⟨rfl, rfl, rfl, rfl, rfl⟩ (by decide)

/-- Claim C10: for every well-formed state with `isEmpty()` true, `pop` returns false and
leaves the buffer and the caller's out item unchanged; and for every item `x`, of either
priority, the next `push(x)` returns true and the `pop` following it returns true with the
out item equal to `x`. -/
theorem C10_empty_pop_then_push (fuel : Nat) (s : CircularBuffer T Size) (o x : T)
    (hwf : WF s) (hempty : s.isEmpty = true) :
    s.pop o = (false, o, s) ∧
      ∃ s1, push fuel s x = some (true, s1) ∧ ∃ s2, s1.pop o = (true, x, s2) := by
  refine ⟨pop_of_isEmpty s o hempty, ?_⟩
  have hc : count s = 0 := (isEmpty_iff_count s hwf).1 hempty
  have hS : 0 < Size := by obtain ⟨_, h, _⟩ := hwf; omega
  have hit0 : items s = [] := by simp [items, hc]
  have hnormal : Normal s := by
    refine ⟨hwf, fun hf => ?_⟩
    simp [isEmpty, hf] at hempty
  obtain ⟨s1, h1, hn1, hit⟩ := push_room fuel s x hnormal (by omega) (fun _ => by omega)
  have hit1 : items s1 = [x] := by
    rw [hit, hit0]
    unfold pushed
    split_ifs <;> simp
  have hc1 : 0 < count s1 := by rw [← length_items, hit1]; simp
  have hcons := items_eq_cons s1 hn1.1 hc1
  rw [hit1] at hcons
  have hx : s1.buffer.getD s1.tail default = x := (List.cons.inj hcons).1.symm
  refine ⟨s1, h1, popped s1, ?_⟩
  rw [pop_of_not_isEmpty s1 o ((isEmpty_false_iff_count s1 hn1.1).2 hc1), hx]

/-- Witness for C10: an empty capacity-2 buffer with both positions at slot 1. -/
theorem C10_empty_pop_then_push_witness :
    (⟨[lo 1, lo 2], 1, 1, false⟩ : CircularBuffer Msg 2).pop (lo 9) =
        (false, lo 9, ⟨[lo 1, lo 2], 1, 1, false⟩) ∧
      ∃ s1, push 0 (⟨[lo 1, lo 2], 1, 1, false⟩ : CircularBuffer Msg 2) (hi 5) =
          some (true, s1) ∧ ∃ s2, s1.pop (lo 9) = (true, hi 5, s2) :=
  C10_empty_pop_then_push 0 ⟨[lo 1, lo 2], 1, 1, false⟩ (lo 9) (hi 5) (by decide) rfl

/-- Claim C11: for every state with `isEmpty()` false and read position below `Size`
(the storage having its `Size` slots), `pop` returns true, sets the out item to the slot
at the read position, advances the read position to `(tail + 1) % Size`, clears the full
flag, and leaves the write position and the storage unchanged. -/
theorem C11_pop_nonempty (s : CircularBuffer T Size) (o : T) (hne : s.isEmpty = false)
    (htail : s.tail < Size) (hlen : s.buffer.length = Size) :
    ∃ x s1, s.pop o = (true, x, s1) ∧ s.buffer[s.tail]? = some x ∧
      s1.tail = (s.tail + 1) % Size ∧ s1.full = false ∧ s1.head = s.head ∧
      s1.buffer = s.buffer := by
  refine ⟨s.buffer.getD s.tail default, popped s, pop_of_not_isEmpty s o hne, ?_, rfl, rfl,
    rfl, rfl⟩
  have h : s.tail < s.buffer.length := by omega
  rw [List.getD_eq_getElem?_getD, List.getElem?_eq_getElem h]
  rfl

/-- Witness for C11: a capacity-3 buffer holding two items from slot 2 on. -/
theorem C11_pop_nonempty_witness :
    ∃ x s1, (⟨[lo 2, lo 9, hi 1], 1, 2, false⟩ : CircularBuffer Msg 3).pop (lo 7) =
        (true, x, s1) ∧
      (⟨[lo 2, lo 9, hi 1], 1, 2, false⟩ : CircularBuffer Msg 3).buffer[2]? = some x ∧
      s1.tail = (2 + 1) % 3 ∧ s1.full = false ∧ s1.head = 1 ∧
      s1.buffer = [lo 2, lo 9, hi 1] :=
  C11_pop_nonempty ⟨[lo 2, lo 9, hi 1], 1, 2, false⟩ (lo 7) rfl (by decide) rfl

/-- Claim C12: for every prior buffer state (any contents of the `Size` storage slots, any
positions, any full flag), after `clear()` `isEmpty()` is true and `isFull()` is false, and
for every sequence of `Size` items of arbitrary priorities the next `Size` pushes all
return true. -/
theorem C12_clear_then_pushes (fuel : Nat) (s : CircularBuffer T Size) (xs : List T)
    (hN : 1 ≤ Size) (hlen : s.buffer.length = Size) (hxs : xs.length = Size)
    (hfuel : Size ≤ fuel) :
    s.clear.isEmpty = true ∧ s.clear.isFull = false ∧
      ∃ s1, pushSeq fuel s.clear xs = some (List.replicate Size true, s1) := by
  have hwf : WF s.clear := ⟨hlen, hN, hN⟩
  have hnormal : Normal s.clear := ⟨hwf, fun h => by simp [clear] at h⟩
  have hempty : s.clear.isEmpty = true := by simp [clear, isEmpty]
  have hc : count s.clear = 0 := (isEmpty_iff_count s.clear hwf).1 hempty
  obtain ⟨s1, h1, _⟩ := pushSeq_room fuel xs s.clear hnormal (by omega) (fun _ => hfuel)
  exact ⟨hempty, rfl, s1, by rw [h1, hxs]⟩

/-- Witness for C12: a capacity-2 buffer in an arbitrary state (positions out of range, full
flag set), cleared and then given a low- and a high-priority item. -/
theorem C12_clear_then_pushes_witness :
    (⟨[hi 1, lo 2], 7, 5, true⟩ : CircularBuffer Msg 2).clear.isEmpty = true ∧
      (⟨[hi 1, lo 2], 7, 5, true⟩ : CircularBuffer Msg 2).clear.isFull = false ∧
      ∃ s1, pushSeq 2 (⟨[hi 1, lo 2], 7, 5, true⟩ : CircularBuffer Msg 2).clear
        [lo 3, hi 4] = some (List.replicate 2 true, s1) :=
  C12_clear_then_pushes 2 ⟨[hi 1, lo 2], 7, 5, true⟩ [lo 3, hi 4] (by decide) rfl rfl
    (by decide)

/-- Counterexample to C13 as stated: with capacity 3, after push(low 1), push(low 2),
push(high 3) the buffer is not full (the high-priority push removed both low-priority
items), and after the further push(high 4) the first pop yields item 3, not item 2. -/
theorem C13_counterexample :
    pushSeq 3 (construct : CircularBuffer Msg 3) [lo 1, lo 2, hi 3] =
        some ([true, true, true], ⟨[hi 3, lo 0, lo 0], 1, 0, false⟩) ∧
      (⟨[hi 3, lo 0, lo 0], 1, 0, false⟩ : CircularBuffer Msg 3).isFull = false ∧
      push 3 (⟨[hi 3, lo 0, lo 0], 1, 0, false⟩ : CircularBuffer Msg 3) (hi 4) =
        some (true, ⟨[hi 3, hi 4, lo 0], 2, 0, false⟩) ∧
      ((⟨[hi 3, hi 4, lo 0], 2, 0, false⟩ : CircularBuffer Msg 3).pop default).2.1 = hi 3 ∧
      ((⟨[hi 3, hi 4, lo 0], 2, 0, false⟩ : CircularBuffer Msg 3).pop default).2.1 ≠ lo 2 := by
  decide

/-- Claim C13, amended: capacity 3, starting from the constructed buffer: the pushes of
low 1, low 2, high 3 all return true and leave a buffer that is not full and whose removal
order is `[3]`; a further push of high 4 returns true, after which two pops yield 3 and 4
in that order and the third pop returns false. -/
theorem C13_scenario :
    ∃ s3 s4 : CircularBuffer Msg 3,
      pushSeq 3 construct [lo 1, lo 2, hi 3] = some ([true, true, true], s3) ∧
      s3.isFull = false ∧ RemovalOrder s3 [hi 3] ∧
      push 3 s3 (hi 4) = some (true, s4) ∧ RemovalOrder s4 [hi 3, hi 4] :=
  ⟨⟨[hi 3, lo 0, lo 0], 1, 0, false⟩, ⟨[hi 3, hi 4, lo 0], 2, 0, false⟩, by decide, rfl,
    ⟨rfl, rfl, rfl⟩, by decide, ⟨rfl, rfl, rfl, rfl, rfl⟩⟩

/-- Claim C14 evaluated on the code, capacity 3, both inputs reached from the constructed
buffer. After the pushes `hi 1, lo 2, lo 3` the buffer is full; pushing `lo 4` returns true
and writes it into the slot of `lo 2`, so the removal order is `[hi 1, lo 4, lo 3]`: the new
item is popped before the older `lo 3`, and the order is not `[hi 1, lo 3, lo 4]`. After the
pushes `lo 1, lo 2, lo 3` the buffer is full; pushing `lo 4` returns true, advances the
write position only and leaves the removal order `[lo 4]`, not `[lo 2, lo 3, lo 4]`. -/
theorem C14_low_push_order_on_code :
    (pushSeq 3 (construct : CircularBuffer Msg 3) [hi 1, lo 2, lo 3] =
        some ([true, true, true], ⟨[hi 1, lo 2, lo 3], 0, 0, true⟩) ∧
      push 3 (⟨[hi 1, lo 2, lo 3], 0, 0, true⟩ : CircularBuffer Msg 3) (lo 4) =
        some (true, ⟨[hi 1, lo 4, lo 3], 0, 0, true⟩) ∧
      RemovalOrder (⟨[hi 1, lo 4, lo 3], 0, 0, true⟩ : CircularBuffer Msg 3)
        [hi 1, lo 4, lo 3] ∧
      ¬ RemovalOrder (⟨[hi 1, lo 4, lo 3], 0, 0, true⟩ : CircularBuffer Msg 3)
        [hi 1, lo 3, lo 4]) ∧
    (pushSeq 3 (construct : CircularBuffer Msg 3) [lo 1, lo 2, lo 3] =
        some ([true, true, true], ⟨[lo 1, lo 2, lo 3], 0, 0, true⟩) ∧
      push 3 (⟨[lo 1, lo 2, lo 3], 0, 0, true⟩ : CircularBuffer Msg 3) (lo 4) =
        some (true, ⟨[lo 4, lo 2, lo 3], 1, 0, true⟩) ∧
      RemovalOrder (⟨[lo 4, lo 2, lo 3], 1, 0, true⟩ : CircularBuffer Msg 3) [lo 4] ∧
      ¬ RemovalOrder (⟨[lo 4, lo 2, lo 3], 1, 0, true⟩ : CircularBuffer Msg 3)
        [lo 2, lo 3, lo 4]) := by
  refine ⟨⟨by decide, by decide, ⟨rfl, rfl, rfl, rfl, rfl, rfl, rfl⟩, ?_⟩,
    ⟨by decide, by decide, ⟨rfl, rfl, rfl⟩, ?_⟩⟩
  · intro h
    exact absurd h.2.2.2.1 (by decide)
  · intro h
    exact absurd h.2.1 (by decide)

/-- Claim C15 evaluated on the code, capacity 3, both inputs reached from the constructed
buffer; the tags are the order of the pushes. After the pushes `hi 1, lo 2, lo 3, lo 4`
(all returning true) the buffer is full with removal order `[hi 1, lo 4, lo 3]`; the push
of `lo 5` returns true and evicts `lo 4`, while the resident `lo 3`, pushed before `lo 4`,
stays. After the pushes `lo 1, lo 2, lo 3` the push of `lo 4` evicts `lo 1` and leaves the
removal order `[lo 4]`: `lo 2` and `lo 3` are no longer delivered either. -/
theorem C15_eviction_on_code :
    (pushSeq 3 (construct : CircularBuffer Msg 3) [hi 1, lo 2, lo 3, lo 4] =
        some ([true, true, true, true], ⟨[hi 1, lo 4, lo 3], 0, 0, true⟩) ∧
      RemovalOrder (⟨[hi 1, lo 4, lo 3], 0, 0, true⟩ : CircularBuffer Msg 3)
        [hi 1, lo 4, lo 3] ∧
      push 3 (⟨[hi 1, lo 4, lo 3], 0, 0, true⟩ : CircularBuffer Msg 3) (lo 5) =
        some (true, ⟨[hi 1, lo 5, lo 3], 0, 0, true⟩) ∧
      RemovalOrder (⟨[hi 1, lo 5, lo 3], 0, 0, true⟩ : CircularBuffer Msg 3)
        [hi 1, lo 5, lo 3]) ∧
    (pushSeq 3 (construct : CircularBuffer Msg 3) [lo 1, lo 2, lo 3] =
        some ([true, true, true], ⟨[lo 1, lo 2, lo 3], 0, 0, true⟩) ∧
      RemovalOrder (⟨[lo 1, lo 2, lo 3], 0, 0, true⟩ : CircularBuffer Msg 3)
        [lo 1, lo 2, lo 3] ∧
      push 3 (⟨[lo 1, lo 2, lo 3], 0, 0, true⟩ : CircularBuffer Msg 3) (lo 4) =
        some (true, ⟨[lo 4, lo 2, lo 3], 1, 0, true⟩) ∧
      RemovalOrder (⟨[lo 4, lo 2, lo 3], 1, 0, true⟩ : CircularBuffer Msg 3) [lo 4]) :=
  ⟨⟨by decide, ⟨rfl, rfl, rfl, rfl, rfl, rfl, rfl⟩, by decide,
      ⟨rfl, rfl, rfl, rfl, rfl, rfl, rfl⟩⟩,
    ⟨by decide, ⟨rfl, rfl, rfl, rfl, rfl, rfl, rfl⟩, by decide, ⟨rfl, rfl, rfl⟩⟩⟩

/-- Claim C17 (eviction step 3a as a state transition): for every state with the full flag
set, positions below `Size` and at least one low-priority slot among the `Size` storage
slots, pushing a low-priority item `x` returns true; with `p` the first index reached by
scanning `tail, tail + 1, ...` modulo `Size` whose item is low-priority, slot `p` now holds
`x`, every other slot is unchanged, the read position and the full flag are unchanged, and
the write position becomes `(head + 1) % Size` if `p = head` and is unchanged otherwise. -/
theorem C17_low_push_overwrites_first_low (fuel : Nat) (s : CircularBuffer T Size) (x : T)
    (hwf : WF s) (hfull : s.full = true)
    (hlow : ∃ i, i < Size ∧ highPriority (s.buffer.getD i default) = false)
    (hx : highPriority x = false) :
    ∃ j p s1, j < Size ∧ p = (s.tail + j) % Size ∧
      highPriority (s.buffer.getD p default) = false ∧
      (∀ i, i < j → highPriority (s.buffer.getD ((s.tail + i) % Size) default) = true) ∧
      push fuel s x = some (true, s1) ∧
      s1.buffer[p]? = some x ∧ (∀ i, i ≠ p → s1.buffer[i]? = s.buffer[i]?) ∧
      s1.buffer.length = Size ∧ s1.tail = s.tail ∧ s1.full = s.full ∧
      s1.head = (if p = s.head then (s.head + 1) % Size else s.head) := by
  have hS : 0 < Size := by obtain ⟨_, h, _⟩ := hwf; omega
  have hnot : ¬ AllSlotsHigh s := by
    intro hall
    obtain ⟨i, hi, hl⟩ := hlow
    rw [hall i hi] at hl
    exact absurd hl (by simp)
  obtain ⟨j, hj, h1, h2, h3⟩ := push_low_full_found fuel s x hwf hfull hx hnot
  have hp : (s.tail + j) % Size < s.buffer.length := by
    rw [hwf.1]; exact Nat.mod_lt _ hS
  refine ⟨j, (s.tail + j) % Size, _, hj, rfl, h1, h2, h3, ?_, ?_, ?_, rfl, rfl, rfl⟩
  · exact List.getElem?_set_self hp
  · intro i hi
    exact List.getElem?_set_ne (Ne.symm hi)
  · simp [hwf.1]

/-- Witness for C17: capacity 3, full, read position 1, the first low-priority slot reached
from there is slot 2. -/
theorem C17_low_push_overwrites_first_low_witness :
    ∃ j p s1, j < 3 ∧ p = (1 + j) % 3 ∧
      highPriority ((⟨[lo 3, hi 1, lo 2], 1, 1, true⟩ : CircularBuffer Msg 3).buffer.getD p
        default) = false ∧
      (∀ i, i < j → highPriority ((⟨[lo 3, hi 1, lo 2], 1, 1, true⟩ :
        CircularBuffer Msg 3).buffer.getD ((1 + i) % 3) default) = true) ∧
      push 0 (⟨[lo 3, hi 1, lo 2], 1, 1, true⟩ : CircularBuffer Msg 3) (lo 4) =
        some (true, s1) ∧
      s1.buffer[p]? = some (lo 4) ∧
      (∀ i, i ≠ p → s1.buffer[i]? = [lo 3, hi 1, lo 2][i]?) ∧
      s1.buffer.length = 3 ∧ s1.tail = 1 ∧ s1.full = true ∧
      s1.head = (if p = 1 then (1 + 1) % 3 else 1) :=
  C17_low_push_overwrites_first_low 0 ⟨[lo 3, hi 1, lo 2], 1, 1, true⟩ (lo 4) (by decide) rfl
    ⟨0, by decide, rfl⟩ rfl

/-- Claim C18: for every `Size ≥ 1` and every state with read and write positions below
`Size` (whatever the full flag, also when it is set with read position different from write
position), the loop of `removeAllLowPriority` reaches `isEmpty()` within at most `Size`
bodies, that is at most `Size` pops; the eviction scan reads at most `Size` slots; and
`push` returns a result when the loop is allowed `Size` bodies. (`pop` and `clear` have no
loop: they are total functions of the embedding.) -/
theorem C18_bounded_work (s : CircularBuffer T Size) (t : Temp T) (x : T) (hN : 1 ≤ Size)
    (hlen : s.buffer.length = Size) (hhead : s.head < Size) (htail : s.tail < Size) :
    (∃ s1 t1, drainLoop Size s t = some (s1, t1) ∧ s1.isEmpty = true) ∧
      (∀ (buf : List T) (pos : Nat), scanReads buf Size Size pos ≤ Size) ∧
      ∃ b s1, push Size s x = some (b, s1) := by
  have hwf : WF s := ⟨hlen, hhead, htail⟩
  have hle := count_le s hwf
  refine ⟨drainLoop_terminates Size s t hwf hle, fun buf pos => scanReads_le buf Size pos, ?_⟩
  cases hx : highPriority x
  · cases hf : s.full
    · exact ⟨true, _, push_low_not_full Size s x hx hf⟩
    · rw [push_low_full Size s x hx hf]
      cases (findLowPriority s.buffer Size Size s.tail).2
      · exact ⟨false, _, rfl⟩
      · exact ⟨true, _, rfl⟩
  · obtain ⟨s1, h1, _⟩ := push_high_spec Size s x hwf hle hx
    exact ⟨true, s1, h1⟩

/-- Witness for C18: capacity 3, full flag set with read position 0 and write position 1. -/
theorem C18_bounded_work_witness :
    (∃ s1 t1, drainLoop 3 (⟨[lo 4, hi 2, lo 3], 1, 0, true⟩ : CircularBuffer Msg 3)
        ⟨[lo 0, lo 0, lo 0], 0, 0, false⟩ = some (s1, t1) ∧ s1.isEmpty = true) ∧
      (∀ (buf : List Msg) (pos : Nat), scanReads buf 3 3 pos ≤ 3) ∧
      ∃ b s1, push 3 (⟨[lo 4, hi 2, lo 3], 1, 0, true⟩ : CircularBuffer Msg 3) (hi 5) =
        some (b, s1) :=
  C18_bounded_work ⟨[lo 4, hi 2, lo 3], 1, 0, true⟩ ⟨[lo 0, lo 0, lo 0], 0, 0, false⟩ (hi 5)
    (by decide) rfl (by decide) (by decide)

/-- Claim C19 (index safety): for every `Size ≥ 1`, in every state reachable from the
constructed buffer by `push`, `pop` and `clear`, the storage has `Size` slots and the read
and write positions are below `Size`; the cursor of the eviction scan, started below `Size`,
stays below `Size`;
and the loop of `removeAllLowPriority` writes `tempBuffer` at the indices `0, 1, ..., k - 1`
in turn, where `k ≤ Size` is the number of kept (high-priority) items, so every write index
is below `Size` and no kept item is overwritten. -/
theorem C19_index_safety (s : CircularBuffer T Size) (n : Nat) (hN : 1 ≤ Size)
    (hreach : Reachable s) :
    s.buffer.length = Size ∧ s.head < Size ∧ s.tail < Size ∧
      (∀ (buf : List T) (pos : Nat), pos < Size →
        (findLowPriority buf Size n pos).1 < Size) ∧
      ∃ cs, RemovalOrder s cs ∧ (cs.filter highPriority).length ≤ Size ∧
        drainWrites Size s ⟨List.replicate Size default, 0, 0, false⟩ =
          List.range (cs.filter highPriority).length := by
  have hwf := reachable_wf hN hreach
  have hle := count_le s hwf
  refine ⟨hwf.1, hwf.2.1, hwf.2.2, fun buf pos hpos => findLowPriority_pos_lt buf hN n pos hpos,
    items s, (removalOrder_iff s hwf _).2 rfl, ?_, ?_⟩
  · have := List.length_filter_le highPriority (items s)
    rw [length_items] at this
    omega
  · rw [List.range_eq_range']
    exact drainWrites_spec Size s _ 0 hwf hle (by omega) (fun _ => rfl)

/-- Witness for C19: capacity 3, the constructed buffer after the pushes `hi 1, hi 2, lo 3`. -/
theorem C19_index_safety_witness :
    (⟨[hi 1, hi 2, lo 3], 0, 0, true⟩ : CircularBuffer Msg 3).buffer.length = 3 ∧
      (⟨[hi 1, hi 2, lo 3], 0, 0, true⟩ : CircularBuffer Msg 3).head < 3 ∧
      (⟨[hi 1, hi 2, lo 3], 0, 0, true⟩ : CircularBuffer Msg 3).tail < 3 ∧
      (∀ (buf : List Msg) (pos : Nat), pos < 3 → (findLowPriority buf 3 3 pos).1 < 3) ∧
      ∃ cs, RemovalOrder (⟨[hi 1, hi 2, lo 3], 0, 0, true⟩ : CircularBuffer Msg 3) cs ∧
        (cs.filter highPriority).length ≤ 3 ∧
        drainWrites 3 (⟨[hi 1, hi 2, lo 3], 0, 0, true⟩ : CircularBuffer Msg 3)
          ⟨List.replicate 3 default, 0, 0, false⟩ =
          List.range (cs.filter highPriority).length :=
  C19_index_safety ⟨[hi 1, hi 2, lo 3], 0, 0, true⟩ 3 (by decide)
    (reachable_pushSeq 3 [hi 1, hi 2, lo 3] construct _ [true, true, true]
      Reachable.construct (by decide))

/-- Claim C20 (priority-ordered drain): in every state reachable from the constructed
buffer by `push`, `pop` and `clear`, the sequence `cs` of items obtained by popping until
`pop` returns false never contains a high-priority item after a low-priority item. -/
theorem C20_high_before_low (s : CircularBuffer T Size) (cs : List T) (hN : 1 ≤ Size)
    (hreach : Reachable s) (horder : RemovalOrder s cs) :
    cs.Pairwise (fun a b => highPriority a = false → highPriority b = false) := by
  have hinv := reachable_orderInv hN hreach
  rw [(removalOrder_iff s hinv.1 cs).1 horder]
  refine List.Pairwise.imp ?_ hinv.2.1
  intro a b hab ha
  cases hb : highPriority b
  · rfl
  · rw [hab hb] at ha
    exact absurd ha (by simp)

/-- Witness for C20: capacity 3, the constructed buffer after the pushes
`hi 1, lo 2, lo 3, lo 4`, whose removal order is `[hi 1, lo 4, lo 3]`. -/
theorem C20_high_before_low_witness :
    [hi 1, lo 4, lo 3].Pairwise (fun a b => highPriority a = false → highPriority b = false) :=
  C20_high_before_low (⟨[hi 1, lo 4, lo 3], 0, 0, true⟩ : CircularBuffer Msg 3)
    [hi 1, lo 4, lo 3] (by decide)
    (reachable_pushSeq 3 [hi 1, lo 2, lo 3, lo 4] construct _ [true, true, true, true]
      Reachable.construct (by decide))
    ⟨rfl, rfl, rfl, rfl, rfl, rfl, rfl⟩

end Vo2
